import Mathlib

set_option maxHeartbeats 1000000
set_option maxRecDepth 8000

/-!
Shallow embedding of the `clasificador` URL-classification pipeline
(`scraper.py`, `llm_providers.py`, `clasificador.py`).

Python strings are modelled as `List Char`; Python dicts as insertion-ordered
association lists (`Rec`), matching CPython dict semantics (updating an
existing key keeps its position, a new key is appended at the end).
External collaborators (HTTP transport, `json.loads`, the page fetcher) are
modelled at their interface, parameterising the embedded functions by their
outcomes.
-/

/-- Python strings, modelled as lists of unicode scalar values. -/
abbrev Str := List Char

/-- A scalar Python/JSON value (an element of a category list). -/
inductive PyScalar where
  | none
  | str (s : Str)
  | intV (n : Nat)
  | boolV (b : Bool)
  deriving DecidableEq, Repr

/-- A Python/JSON value as it occurs in this program's data: a scalar, a flat
list of scalars, or a flat string-to-scalar dict (such as `og_tags`) — which
covers every value the program inspects. -/
inductive PyVal where
  | none
  | str (s : Str)
  | intV (n : Nat)
  | boolV (b : Bool)
  | list (xs : List PyScalar)
  | dictV (d : List (Str × PyScalar))
  deriving DecidableEq, Repr

instance : Inhabited PyScalar := ⟨PyScalar.none⟩

instance : Inhabited PyVal := ⟨PyVal.none⟩

/-- A Python dict with string keys, as an insertion-ordered association list. -/
abbrev Rec := List (Str × PyVal)

/-- Python truthiness for the values above (`if v:`). -/
def pyTruthy : PyVal → Bool
  | .none => false
  | .str s => !s.isEmpty
  | .intV n => n != 0
  | .boolV b => b
  | .list xs => !xs.isEmpty
  | .dictV d => !d.isEmpty

/-- `d.get(k)` as an `Option`: value of the first (hence unique) entry for `k`. -/
def dictGet (d : Rec) (k : Str) : Option PyVal :=
  (d.find? (fun kv => kv.1 == k)).map Prod.snd

/-- Python `d.get(k)` (default `None`). -/
def pyGet (d : Rec) (k : Str) : PyVal := (dictGet d k).getD .none

/-- Python `d[k]`.  Raises `KeyError` when the key is absent; every record this
program indexes into contains the key, so the embedding is total and returns
`None` on the (unreachable) missing-key case. -/
def pyIndex (d : Rec) (k : Str) : PyVal := pyGet d k

/-- Python `d[k] = v`: update in place if present (keeping position), else
append at the end. -/
def dictSet (d : Rec) (k : Str) (v : PyVal) : Rec :=
  if d.any (fun kv => kv.1 == k) then
    d.map (fun kv => if kv.1 == k then (k, v) else kv)
  else d ++ [(k, v)]

/-- Python `d.update(u)`: assign each of `u`'s entries in order. -/
def dictUpdate (d u : Rec) : Rec :=
  u.foldl (fun acc kv => dictSet acc kv.1 kv.2) d

/-- The keys of a dict, in order. -/
def keysOf (d : Rec) : List Str := d.map Prod.fst

/-- Python `str.isspace` characters relevant to `str.strip()` (ASCII range). -/
def pyIsSpace (c : Char) : Bool :=
  c = ' ' || c = '\t' || c = '\n' || c = '\r' || c = '\x0b' || c = '\x0c'

/-- Strip characters satisfying `p` from both ends. -/
def stripBy (p : Char → Bool) (s : Str) : Str :=
  ((s.dropWhile p).reverse.dropWhile p).reverse

/-- Python `s.strip()`. -/
def pyStrip (s : Str) : Str := stripBy pyIsSpace s

/-- Python `s.strip('"')`. -/
def pyStripQuote (s : Str) : Str := stripBy (fun c => c = '"') s

/-! ## scraper.py -/

/-- `scraper.normalize_url`: strip whitespace and quotes, reject blanks and
bare-scheme placeholders, default the scheme to `https://`. -/
def normalize_url (raw : Str) : Option Str :=
  let url := pyStripQuote (pyStrip raw)
  if url.isEmpty || url = "https://".toList || url = "http://".toList ||
      url = "https".toList || url = "http".toList then
    Option.none
  else if "http://".toList.isPrefixOf url || "https://".toList.isPrefixOf url then
    some url
  else
    some ("https://".toList ++ url)

/-- `clasificador.load_urls`: normalize each line, keeping the valid ones. -/
def load_urls (lines : List Str) : List Str :=
  lines.filterMap normalize_url

/-! ## llm_providers.py — response parsing and category normalization -/

def kSiteCat : Str := "site_cat".toList
def kSitePagecat : Str := "site_pagecat".toList
def kSiteContentCat : Str := "site_content_cat".toList
def kSiteContentLanguage : Str := "site_content_language".toList
def kSiteContentKeywords : Str := "site_content_keywords".toList
def kSiteContentTitle : Str := "site_content_title".toList

/-- `llm_providers.EXPECTED_FIELDS`. -/
def EXPECTED_FIELDS : List Str :=
  [kSiteCat, kSitePagecat, kSiteContentCat,
   kSiteContentLanguage, kSiteContentKeywords, kSiteContentTitle]

/-- `llm_providers.CAT_FIELDS`. -/
def CAT_FIELDS : List Str := [kSiteCat, kSitePagecat, kSiteContentCat]

/-- `code.split("-")[0]`: the part of a category code before the first `-`. -/
def parentOf (code : Str) : Str := code.takeWhile (fun c => c ≠ '-')

/-- The loop body of `_ensure_parent_cats`: iterate over the original list,
appending each missing parent to the accumulating result (which starts as a
copy of the list).  `"-" in code` on a non-string element raises `TypeError`. -/
def ensureParentAux : List PyScalar → List PyScalar → Except Str (List PyScalar)
  | [], result => .ok result
  | PyScalar.str code :: rest, result =>
    if code.contains '-' then
      let parent := PyScalar.str (parentOf code)
      if parent ∈ result then ensureParentAux rest result
      else ensureParentAux rest (result ++ [parent])
    else ensureParentAux rest result
  | _ :: _, _ => .error "TypeError: argument of type is not iterable".toList

/-- `llm_providers._ensure_parent_cats`. -/
def ensure_parent_cats (cats : List PyScalar) : Except Str (List PyScalar) :=
  if cats.isEmpty then .ok cats else ensureParentAux cats cats

/-- The suffix after the first `"\n"` (`text.split("\n", 1)[1]`, defined when a
newline is present). -/
def afterFirstNl : Str → Str
  | [] => []
  | c :: t => if c = '\n' then t else afterFirstNl t

/-- The fence-stripping front half of `parse_llm_response`: strip whitespace,
then if the text starts with a markdown fence, drop the first line (or the
three backticks), a trailing fence, and an optional leading `json` tag. -/
def stripFences (raw : Str) : Str :=
  let text := pyStrip raw
  if "```".toList.isPrefixOf text then
    let text := if text.contains '\n' then afterFirstNl text else text.drop 3
    let text := if "```".toList.isSuffixOf text then text.take (text.length - 3) else text
    let text := pyStrip text
    if "json".toList.isPrefixOf text then pyStrip (text.drop 4) else text
  else text

/-- The top-level result of `json.loads`: a JSON object (a dict) or any other
value. -/
inductive JTop where
  | obj (d : Rec)
  | other (v : PyVal)
  deriving DecidableEq, Repr

/-- `for field in EXPECTED_FIELDS: if field not in result: result[field] = None`. -/
def fillMissing (d : Rec) : Rec :=
  EXPECTED_FIELDS.foldl
    (fun acc f => if acc.any (fun kv => kv.1 == f) then acc else acc ++ [(f, PyVal.none)]) d

/-- `for field in CAT_FIELDS: if isinstance(result.get(field), list): ...`. -/
def normalizeCats (d : Rec) : Except Str Rec :=
  CAT_FIELDS.foldlM
    (fun acc f =>
      match pyGet acc f with
      | .list xs => (ensure_parent_cats xs).map (fun xs2 => dictSet acc f (.list xs2))
      | _ => .ok acc) d

/-- `llm_providers.parse_llm_response`, parameterised by the external
`json.loads` (`loads`).  A parse failure propagates as the raised error; a
top-level non-object makes the field fill-in raise (modelled as `TypeError`). -/
def parse_llm_response (loads : Str → Except Str JTop) (raw : Str) : Except Str Rec :=
  match loads (stripFences raw) with
  | .error m => .error m
  | .ok (JTop.obj d) => normalizeCats (fillMissing d)
  | .ok (JTop.other _) => .error "TypeError: non-object JSON result".toList

/-! ## llm_providers.py — retry/backoff loops -/

/-- `llm_providers.MAX_RETRIES`. -/
def MAX_RETRIES : Nat := 3

/-- The suffix of `hay` after the first occurrence of `needle` (if any). -/
def afterSubstr (needle : Str) : Str → Option Str
  | [] => if needle.isEmpty then some [] else Option.none
  | c :: t =>
    if needle.isPrefixOf (c :: t) then some ((c :: t).drop needle.length)
    else afterSubstr needle t

/-- Python `needle in hay` on strings. -/
def isSubstr (needle hay : Str) : Bool := (afterSubstr needle hay).isSome

/-- `"429" in error_str`: the rate-limit marker check of `GeminiProvider`. -/
def is429 (msg : Str) : Bool := isSubstr "429".toList msg

/-- Numeric value of a digit string. -/
def digitsVal (ds : Str) : Nat :=
  ds.foldl (fun a c => a * 10 + (c.toNat - '0'.toNat)) 0

/-- The first maximal digit run immediately followed by `'s'`, scanning left to
right (the match of `(\d+)s` under a lazy prefix). -/
def findDigitsS : Str → Option Nat
  | [] => Option.none
  | c :: t =>
    if c.isDigit then
      let run := (c :: t).takeWhile Char.isDigit
      match (c :: t).drop run.length with
      | 's' :: _ => some (digitsVal run)
      | _ => findDigitsS t
    else findDigitsS t

/-- `re.search(r'retryDelay.*?(\d+)s', error_str)`: the server-suggested wait
extracted from a Gemini rate-limit error message. -/
def extractRetryDelay (msg : Str) : Option Nat :=
  match afterSubstr "retryDelay".toList msg with
  | some rest => findDigitsS rest
  | Option.none => Option.none

/-- Outcome of one `client.models.generate_content` call: the response text,
or the raised exception rendered by `str(e)`. -/
inductive GemAttempt where
  | ok (rawText : Str)
  | exn (msg : Str)

/-- Observable behaviour of one `classify` call: the returned classification
(or raised error), the number of provider attempts made, and the sleeps
performed (in seconds). -/
structure CallTrace where
  result : Except Str Rec
  calls : Nat
  waits : List Nat
  deriving Repr

/-- The `for attempt in range(MAX_RETRIES)` loop of `GeminiProvider.classify`.
The `try` block covers both the provider call and `parse_llm_response`, so a
parse failure also reaches the `except` handler; the handler retries (after a
sleep) iff `"429"` occurs in the error text and attempts remain, else
re-raises.  `fuel` is the number of loop iterations left. -/
def geminiLoop (loads : Str → Except Str JTop) (att : Nat → GemAttempt) :
    Nat → Nat → CallTrace
  | _, 0 => ⟨.error "loop exhausted".toList, 0, []⟩
  | attempt, fuel + 1 =>
    let outcome : Except Str Rec :=
      match att attempt with
      | .ok raw => parse_llm_response loads raw
      | .exn m => .error m
    match outcome with
    | .ok v => ⟨.ok v, 1, []⟩
    | .error m =>
      if is429 m && decide (attempt < MAX_RETRIES - 1) then
        let wait := (extractRetryDelay m).getD (30 * (attempt + 1))
        let t := geminiLoop loads att (attempt + 1) fuel
        ⟨t.result, t.calls + 1, wait :: t.waits⟩
      else ⟨.error m, 1, []⟩

/-- `GeminiProvider.classify` (given the per-attempt outcomes). -/
def gemini_classify (loads : Str → Except Str JTop) (att : Nat → GemAttempt) : CallTrace :=
  geminiLoop loads att 0 MAX_RETRIES

/-- Outcome of one `requests.post` call in `GroqProvider.classify`: an HTTP
response (status, optional `retry-after` header, and the extraction
`response.json()["choices"][0]["message"]["content"]`, which itself may
raise), or a transport exception that is not an `HTTPError`. -/
inductive GroqAttempt where
  | response (status : Nat) (retryAfter : Option Nat) (content : Except Str Str)
  | raises (msg : Str)

/-- The retry loop of `GroqProvider.classify`.  A 429 status with attempts
remaining sleeps `retry-after` (default `30 * (attempt + 1)`) and continues;
`raise_for_status` turns any other `>= 400` status into an `HTTPError` that
the handler re-raises (its 429-with-attempts-remaining arm is unreachable);
transport exceptions, body-extraction failures and parse failures propagate
immediately. -/
def groqLoop (loads : Str → Except Str JTop) (att : Nat → GroqAttempt) :
    Nat → Nat → CallTrace
  | _, 0 => ⟨.error "loop exhausted".toList, 0, []⟩
  | attempt, fuel + 1 =>
    match att attempt with
    | .raises m => ⟨.error m, 1, []⟩
    | .response status retryAfter content =>
      if status == 429 && decide (attempt < MAX_RETRIES - 1) then
        let wait := retryAfter.getD (30 * (attempt + 1))
        let t := groqLoop loads att (attempt + 1) fuel
        ⟨t.result, t.calls + 1, wait :: t.waits⟩
      else if 400 ≤ status then
        if decide (attempt < MAX_RETRIES - 1) && status == 429 then
          let t := groqLoop loads att (attempt + 1) fuel
          ⟨t.result, t.calls + 1, t.waits⟩
        else ⟨.error ("HTTPError ".toList ++ (Nat.repr status).toList), 1, []⟩
      else
        match content with
        | .error m => ⟨.error m, 1, []⟩
        | .ok text =>
          match parse_llm_response loads text with
          | .ok v => ⟨.ok v, 1, []⟩
          | .error m => ⟨.error m, 1, []⟩

/-- `GroqProvider.classify` (given the per-attempt outcomes). -/
def groq_classify (loads : Str → Except Str JTop) (att : Nat → GroqAttempt) : CallTrace :=
  groqLoop loads att 0 MAX_RETRIES

/-! ## A model of CPython `json.loads` on the JSON fragment used here
(integers and flat arrays of integers), faithful to its `Expecting value`
error positions on single-line input. -/

/-- JSON whitespace. -/
def jsonWs (c : Char) : Bool := c = ' ' || c = '\t' || c = '\n' || c = '\r'

/-- Skip whitespace, tracking the character position. -/
def skipWsL : List Char → Nat → List Char × Nat
  | [], p => ([], p)
  | c :: t, p => if jsonWs c then skipWsL t (p + 1) else (c :: t, p)

/-- A scan failure: no value could start at `pos`, or some other syntax error
at `pos`. -/
inductive ScanErr where
  | expectingValue (pos : Nat)
  | other (pos : Nat)

/-- Read a maximal digit run: its value, the rest, and the new position. -/
def scanIntRun (s : List Char) (p : Nat) : Nat × List Char × Nat :=
  let digits := s.takeWhile Char.isDigit
  (digitsVal digits, s.drop digits.length, p + digits.length)

/-- Parse the items of a non-empty array (after `[` and leading whitespace). -/
def jsonArrayItems : Nat → List Char → Nat → List PyScalar →
    Except ScanErr (List PyScalar × List Char × Nat)
  | 0, _, p, _ => .error (.other p)
  | fuel + 1, s, p, acc =>
    match s with
    | [] => .error (.expectingValue p)
    | c :: _ =>
      if c.isDigit then
        let (n, s1, p1) := scanIntRun s p
        let (s2, p2) := skipWsL s1 p1
        match s2 with
        | ']' :: r => .ok (acc ++ [PyScalar.intV n], r, p2 + 1)
        | ',' :: r =>
          let (s3, p3) := skipWsL r (p2 + 1)
          jsonArrayItems fuel s3 p3 (acc ++ [PyScalar.intV n])
        | _ => .error (.other p2)
      else .error (.expectingValue p)

/-- Parse one top-level JSON value. -/
def jsonValueTop (s0 : List Char) : Except ScanErr (JTop × List Char × Nat) :=
  let (s, p) := skipWsL s0 0
  match s with
  | [] => .error (.expectingValue p)
  | c :: t =>
    if c.isDigit then
      let (n, s1, p1) := scanIntRun s p
      .ok (JTop.other (PyVal.intV n), s1, p1)
    else if c = '[' then
      let (s1, p1) := skipWsL t (p + 1)
      match s1 with
      | ']' :: r => .ok (JTop.other (PyVal.list []), r, p1 + 1)
      | _ =>
        (jsonArrayItems (s1.length + 1) s1 p1 []).map
          (fun vrp => (JTop.other (PyVal.list vrp.1), vrp.2.1, vrp.2.2))
    else .error (.expectingValue p)

/-- The message of the `json.JSONDecodeError` CPython raises when no value can
start at `pos` of a single-line document (`str(e)` includes the offset). -/
def expectingValueMsg (pos : Nat) : Str :=
  "Expecting value: line 1 column ".toList ++ (Nat.repr (pos + 1)).toList ++
    " (char ".toList ++ (Nat.repr pos).toList ++ [')']

/-- `json.loads` over this fragment. -/
def miniJsonLoads (s : Str) : Except Str JTop :=
  match jsonValueTop s with
  | .error (.expectingValue p) => .error (expectingValueMsg p)
  | .error (.other p) => .error ("Invalid JSON at char ".toList ++ (Nat.repr p).toList)
  | .ok (v, rest, p) =>
    let rp := skipWsL rest p
    if rp.1.isEmpty then .ok v else .error "Extra data".toList

/-! ## clasificador.py and scraper.py — records, per-URL processing, driver -/

def kUrl : Str := "url".toList
def kScrapeError : Str := "scrape_error".toList
def kLlmError : Str := "llm_error".toList
def kError : Str := "error".toList
def kLanguageHint : Str := "language_hint".toList
def kTitle : Str := "title".toList
def kDescription : Str := "description".toList
def kOgTags : Str := "og_tags".toList
def kMetaKeywords : Str := "meta_keywords".toList
def kTextContent : Str := "text_content".toList

/-- `clasificador.process_url`, given the record returned by `scrape_url` and
the outcome of `provider.classify(scraped)` (the classification dict, or the
raised exception rendered by `str(e)`). -/
def process_url (url : Str) (scraped : Rec) (cls : Except Str Rec) : Rec :=
  if pyTruthy (pyGet scraped kError) then
    [(kUrl, PyVal.str url),
     (kScrapeError, pyIndex scraped kError),
     (kSiteCat, PyVal.none),
     (kSitePagecat, PyVal.none),
     (kSiteContentCat, PyVal.none),
     (kSiteContentLanguage, pyGet scraped kLanguageHint),
     (kSiteContentKeywords, PyVal.none),
     (kSiteContentTitle, pyGet scraped kTitle)]
  else
    match cls with
    | .ok c => dictUpdate [(kUrl, PyVal.str url), (kScrapeError, PyVal.none)] c
    | .error e =>
      [(kUrl, PyVal.str url),
       (kLlmError, PyVal.str e),
       (kSiteCat, PyVal.none),
       (kSitePagecat, PyVal.none),
       (kSiteContentCat, PyVal.none),
       (kSiteContentLanguage, pyGet scraped kLanguageHint),
       (kSiteContentKeywords, PyVal.none),
       (kSiteContentTitle, pyGet scraped kTitle)]

/-- The states a result-store file can be in at startup. -/
inductive StoreFile where
  | absent
  | unreadable (msg : Str)
  | invalidJson
  | valid (doc : List Rec)

/-- `clasificador.load_existing_results`: the `except` clause catches exactly
`FileNotFoundError` and `json.JSONDecodeError`; any other error while opening
or reading the file (e.g. `PermissionError`) propagates. -/
def load_existing_results : StoreFile → Except Str (List Rec)
  | .absent => .ok []
  | .unreadable m => .error m
  | .invalidJson => .ok []
  | .valid doc => .ok doc

/-- `r["url"]`. -/
def urlOf (r : Rec) : PyVal := pyIndex r kUrl

/-- The `url` values of a store, in order. -/
def urlsOfStore (s : List Rec) : List PyVal := s.map urlOf

/-- `r.get("llm_error") or r.get("scrape_error")` (Python truthiness). -/
def isErroredRec (r : Rec) : Bool :=
  pyTruthy (pyGet r kLlmError) || pyTruthy (pyGet r kScrapeError)

/-- The retry-errors step of `main`: collect the urls of errored records and
drop every record whose url is among them. -/
def retryFilter (results : List Rec) (retryErrors : Bool) : List Rec :=
  if retryErrors then
    let errorUrls := (results.filter isErroredRec).map urlOf
    results.filter (fun r => !(errorUrls.contains (urlOf r)))
  else results

/-- `pending = [u for u in urls if u not in processed_urls]`. -/
def pendingOf (urls : List Str) (results : List Rec) : List Str :=
  urls.filter (fun u => !((urlsOfStore results).contains (PyVal.str u)))

/-- One pipeline run's configuration and environment: the input file's lines,
the relevant CLI options, the workers' completion order (`sched` — the
identity in sequential mode, an arbitrary permutation of the dispatched list
in concurrent mode), and the collaborator outcomes per URL (the scraped
record, and the classify result or raised error). -/
structure RunSpec where
  inputLines : List Str
  retryErrors : Bool
  maxRequests : Nat
  sched : List Str → List Str
  scrapeOf : Str → Rec
  clsOf : Str → Except Str Rec

/-- `if args.max_requests > 0 and len(pending) > args.max_requests: pending =
pending[:args.max_requests]`. -/
def cappedPending (spec : RunSpec) (pending : List Str) : List Str :=
  if 0 < spec.maxRequests && decide (spec.maxRequests < pending.length) then
    pending.take spec.maxRequests
  else pending

/-- One run of `clasificador.main` over an already-loaded store: apply the
retry-errors filter, compute the pending list, return `none` when there is
nothing to process (the run ends before any save), else the finally-saved
result list — the kept records followed by the new records in completion
order (truncated first by `--max-requests` if configured). -/
def runOnce (spec : RunSpec) (store : List Rec) : Option (List Rec) :=
  let urls := load_urls spec.inputLines
  let results := retryFilter store spec.retryErrors
  let pending := pendingOf urls results
  if pending.isEmpty then Option.none
  else
    some (results ++ (spec.sched (cappedPending spec pending)).map
      (fun u => process_url u (spec.scrapeOf u) (spec.clsOf u)))

/-- The store-file content after a run (unchanged when the run saved nothing). -/
def runFile (spec : RunSpec) (file : List Rec) : List Rec :=
  (runOnce spec file).getD file

/-- The store built by a sequence of runs, starting with no store file. -/
def runSeq (specs : List RunSpec) : List Rec :=
  specs.foldl (fun f s => runFile s f) []

/-! ### scraper.py — the fetch-with-timeout model -/

/-- What the external collaborators return for a successfully-downloaded
page: the metadata dict from `_extract_metadata`, the text from
`trafilatura.extract`, and the `langdetect.detect` outcome (a language, or a
`LangDetectException`). -/
structure PageData where
  meta : Rec
  text : Option Str
  detected : Except Unit Str

/-- Outcome of the worker thread's body: `trafilatura.fetch_url` raised,
returned a falsy value, or returned a page.  Exceptions raised later in the
body are modelled as fetch exceptions, since the enclosing `except Exception`
handles them all alike. -/
inductive WorkerEnv where
  | fetchRaises (msg : Str)
  | fetchEmpty
  | fetchOk (pd : PageData)

/-- `scraper._scrape_with_timeout` (the thread body), acting on the shared
result record: every exception is caught and turned into `result["error"]`. -/
def scrape_with_timeout (env : WorkerEnv) (result : Rec) : Rec :=
  match env with
  | .fetchRaises m => dictSet result kError (PyVal.str m)
  | .fetchEmpty => dictSet result kError (PyVal.str "Failed to download URL".toList)
  | .fetchOk pd =>
    let r := dictUpdate result pd.meta
    let r :=
      match pd.text with
      | some t => if !t.isEmpty then dictSet r kTextContent (PyVal.str (t.take 4000)) else r
      | Option.none => r
    if !pyTruthy (pyIndex r kLanguageHint) && pyTruthy (pyIndex r kTextContent) then
      match pd.detected with
      | .ok lang => dictSet r kLanguageHint (PyVal.str lang)
      | .error _ => r
    else r

/-- Whether the worker thread finished within the timeout; if not, the shared
record holds whatever subset of the worker's writes had landed by then. -/
inductive ScrapeEnv where
  | completes (env : WorkerEnv)
  | hangs (partialWrites : Rec)

/-- The result record `scrape_url` initialises before starting the worker. -/
def scrapeInitRec (url : Str) : Rec :=
  [(kUrl, PyVal.str url), (kTitle, PyVal.none), (kDescription, PyVal.none),
   (kOgTags, PyVal.dictV []), (kMetaKeywords, PyVal.none),
   (kTextContent, PyVal.none), (kLanguageHint, PyVal.none), (kError, PyVal.none)]

/-- `scraper.scrape_url`: build the 8-key record, run the worker under a
timeout, and set the timeout error if the thread is still alive.  It never
raises: all worker failures are folded into the `error` value. -/
def scrape_url (url : Str) (timeout : Nat) (env : ScrapeEnv) : Rec :=
  match env with
  | .completes w => scrape_with_timeout w (scrapeInitRec url)
  | .hangs partialWrites =>
    dictSet (dictUpdate (scrapeInitRec url) partialWrites) kError
      (PyVal.str ("Timed out after ".toList ++ (Nat.repr timeout).toList ++ ['s']))

/-! ## Lemmas about the dict operations -/


theorem mem_keysOf_cons (kv : Str × PyVal) (d : Rec) (k : Str) :
    k ∈ keysOf (kv :: d) ↔ k = kv.1 ∨ k ∈ keysOf d := by
  simp [keysOf]

theorem hasKey_iff (d : Rec) (k : Str) :
    d.any (fun kv => kv.1 == k) = true ↔ k ∈ keysOf d := by
  induction d with
  | nil => simp [keysOf]
  | cons kv t ih =>
    rw [List.any_cons, mem_keysOf_cons]
    constructor
    · intro h
      rcases Bool.or_eq_true_iff.mp h with h1 | h2
      · exact Or.inl (beq_iff_eq.mp h1).symm
      · exact Or.inr (ih.mp h2)
    · rintro (h1 | h2)
      · exact Bool.or_eq_true_iff.mpr (Or.inl (beq_iff_eq.mpr h1.symm))
      · exact Bool.or_eq_true_iff.mpr (Or.inr (ih.mpr h2))

theorem dictGet_cons (kv : Str × PyVal) (d : Rec) (k : Str) :
    dictGet (kv :: d) k = if kv.1 = k then some kv.2 else dictGet d k := by
  by_cases h : kv.1 = k <;> simp [dictGet, List.find?_cons, h]

theorem dictGet_eq_none_of_notMem (d : Rec) (k : Str) (h : k ∉ keysOf d) :
    dictGet d k = Option.none := by
  induction d with
  | nil => rfl
  | cons kv t ih =>
    rw [dictGet_cons, if_neg (fun he => h ((mem_keysOf_cons kv t k).mpr (Or.inl he.symm)))]
    exact ih (fun hm => h ((mem_keysOf_cons kv t k).mpr (Or.inr hm)))

theorem dictGet_append (d₁ d₂ : Rec) (k : Str) :
    dictGet (d₁ ++ d₂) k =
      match dictGet d₁ k with
      | some v => some v
      | Option.none => dictGet d₂ k := by
  induction d₁ with
  | nil => simp [dictGet]
  | cons kv t ih =>
    by_cases h : kv.1 = k
    · simp [dictGet_cons, h]
    · simpa [dictGet_cons, h] using ih

theorem keysOf_mapSet (d : Rec) (k : Str) (v : PyVal) :
    keysOf (d.map (fun kv => if kv.1 == k then (k, v) else kv)) = keysOf d := by
  induction d with
  | nil => rfl
  | cons kv t ih =>
    simp only [List.map_cons]
    by_cases h : kv.1 = k
    · rw [if_pos (beq_iff_eq.mpr h)]
      show k :: keysOf _ = kv.1 :: keysOf t
      rw [h, ih]
    · rw [if_neg (fun hb => h (beq_iff_eq.mp hb))]
      show kv.1 :: keysOf _ = kv.1 :: keysOf t
      rw [ih]

theorem dictGet_mapSet_self (d : Rec) (k : Str) (v : PyVal) (hk : k ∈ keysOf d) :
    dictGet (d.map (fun kv => if kv.1 == k then (k, v) else kv)) k = some v := by
  induction d with
  | nil => simp [keysOf] at hk
  | cons kv t ih =>
    simp only [List.map_cons]
    by_cases h : kv.1 = k
    · rw [if_pos (beq_iff_eq.mpr h), dictGet_cons, if_pos rfl]
    · rw [if_neg (fun hb => h (beq_iff_eq.mp hb)), dictGet_cons, if_neg h]
      refine ih ?_
      rcases (mem_keysOf_cons kv t k).mp hk with he | hm
      · exact absurd he.symm h
      · exact hm

theorem dictGet_mapSet_ne (d : Rec) (k k' : Str) (v : PyVal) (h : k' ≠ k) :
    dictGet (d.map (fun kv => if kv.1 == k then (k, v) else kv)) k' = dictGet d k' := by
  induction d with
  | nil => rfl
  | cons kv t ih =>
    simp only [List.map_cons]
    by_cases hh : kv.1 = k
    · rw [if_pos (beq_iff_eq.mpr hh), dictGet_cons, dictGet_cons,
        if_neg (Ne.symm h), if_neg (fun he : kv.1 = k' => h (hh ▸ he).symm)]
      exact ih
    · rw [if_neg (fun hb => hh (beq_iff_eq.mp hb)), dictGet_cons, dictGet_cons]
      by_cases hk' : kv.1 = k'
      · rw [if_pos hk', if_pos hk']
      · rw [if_neg hk', if_neg hk']
        exact ih

theorem dictGet_dictSet_self (d : Rec) (k : Str) (v : PyVal) :
    dictGet (dictSet d k v) k = some v := by
  unfold dictSet
  by_cases h : d.any (fun kv => kv.1 == k) = true
  · rw [if_pos h]; exact dictGet_mapSet_self d k v ((hasKey_iff d k).mp h)
  · rw [if_neg h, dictGet_append,
      dictGet_eq_none_of_notMem d k (fun hm => h ((hasKey_iff d k).mpr hm))]
    simp [dictGet_cons]

theorem dictGet_dictSet_ne (d : Rec) (k k' : Str) (v : PyVal) (h : k' ≠ k) :
    dictGet (dictSet d k v) k' = dictGet d k' := by
  unfold dictSet
  by_cases hk : d.any (fun kv => kv.1 == k) = true
  · rw [if_pos hk]; exact dictGet_mapSet_ne d k k' v h
  · rw [if_neg hk, dictGet_append]
    have hone : dictGet [(k, v)] k' = Option.none := by
      rw [dictGet_cons, if_neg (fun he : k = k' => h he.symm)]
      rfl
    cases hd : dictGet d k' <;> simp [hone, hd]

theorem keysOf_dictSet (d : Rec) (k : Str) (v : PyVal) :
    keysOf (dictSet d k v) = if k ∈ keysOf d then keysOf d else keysOf d ++ [k] := by
  unfold dictSet
  by_cases h : d.any (fun kv => kv.1 == k) = true
  · rw [if_pos h, if_pos ((hasKey_iff d k).mp h)]; exact keysOf_mapSet d k v
  · rw [if_neg h, if_neg (fun hm => h ((hasKey_iff d k).mpr hm))]
    simp [keysOf]

theorem mem_keysOf_dictSet (d : Rec) (k k' : Str) (v : PyVal) :
    k' ∈ keysOf (dictSet d k v) ↔ k' ∈ keysOf d ∨ k' = k := by
  rw [keysOf_dictSet]
  by_cases h : k ∈ keysOf d
  · rw [if_pos h]
    constructor
    · exact Or.inl
    · rintro (hm | rfl)
      · exact hm
      · exact h
  · rw [if_neg h]; simp

theorem dictGet_dictUpdate_notMem (d u : Rec) (k : Str) (h : k ∉ keysOf u) :
    dictGet (dictUpdate d u) k = dictGet d k := by
  induction u generalizing d with
  | nil => rfl
  | cons kv t ih =>
    have h1 : kv.1 ≠ k := fun he => h ((mem_keysOf_cons kv t k).mpr (Or.inl he.symm))
    have h2 : k ∉ keysOf t := fun hm => h ((mem_keysOf_cons kv t k).mpr (Or.inr hm))
    show dictGet (dictUpdate (dictSet d kv.1 kv.2) t) k = dictGet d k
    rw [ih (dictSet d kv.1 kv.2) h2, dictGet_dictSet_ne d kv.1 k kv.2 (Ne.symm h1)]

theorem mem_keysOf_dictUpdate (d u : Rec) (k : Str) :
    k ∈ keysOf (dictUpdate d u) ↔ k ∈ keysOf d ∨ k ∈ keysOf u := by
  induction u generalizing d with
  | nil => simp [dictUpdate, keysOf]
  | cons kv t ih =>
    show k ∈ keysOf (dictUpdate (dictSet d kv.1 kv.2) t) ↔ _
    rw [ih, mem_keysOf_dictSet, mem_keysOf_cons]
    tauto

theorem keysOf_dictUpdate_subset (d u : Rec) (h : keysOf u ⊆ keysOf d) :
    keysOf (dictUpdate d u) = keysOf d := by
  induction u generalizing d with
  | nil => rfl
  | cons kv t ih =>
    show keysOf (dictUpdate (dictSet d kv.1 kv.2) t) = keysOf d
    have h1 : kv.1 ∈ keysOf d := h (by rw [mem_keysOf_cons]; exact Or.inl rfl)
    have h2 : keysOf (dictSet d kv.1 kv.2) = keysOf d := by
      rw [keysOf_dictSet, if_pos h1]
    rw [ih (dictSet d kv.1 kv.2) (by
      rw [h2]
      exact fun x hx => h ((mem_keysOf_cons kv t x).mpr (Or.inr hx))), h2]

/-! ## Lemmas for the parent-category normalization -/

/-- The recursion of `_ensure_parent_cats` on all-string input, as a pure
function. -/
def epcPure : List Str → List PyScalar → List PyScalar
  | [], res => res
  | code :: rest, res =>
    if code.contains '-' then
      if PyScalar.str (parentOf code) ∈ res then epcPure rest res
      else epcPure rest (res ++ [PyScalar.str (parentOf code)])
    else epcPure rest res

theorem ensureParentAux_eq_epcPure (cats : List Str) (res : List PyScalar) :
    ensureParentAux (cats.map PyScalar.str) res = .ok (epcPure cats res) := by
  induction cats generalizing res with
  | nil => rfl
  | cons code rest ih =>
    show ensureParentAux (PyScalar.str code :: rest.map PyScalar.str) res = _
    unfold ensureParentAux epcPure
    by_cases hc : code.contains '-'
    · rw [if_pos hc, if_pos hc]
      by_cases hm : PyScalar.str (parentOf code) ∈ res
      · rw [if_pos hm, if_pos hm]; exact ih res
      · rw [if_neg hm, if_neg hm]; exact ih _
    · rw [if_neg hc, if_neg hc]; exact ih res

theorem epcPure_grows (cats : List Str) (res : List PyScalar) :
    res <+: epcPure cats res := by
  induction cats generalizing res with
  | nil => exact List.prefix_refl res
  | cons code rest ih =>
    unfold epcPure
    by_cases hc : code.contains '-'
    · rw [if_pos hc]
      by_cases hm : PyScalar.str (parentOf code) ∈ res
      · rw [if_pos hm]; exact ih res
      · rw [if_neg hm]
        exact List.IsPrefix.trans (List.prefix_append res _) (ih _)
    · rw [if_neg hc]; exact ih res

theorem parent_mem_epcPure (cats : List Str) (res : List PyScalar) :
    ∀ code ∈ cats, code.contains '-' = true →
      PyScalar.str (parentOf code) ∈ epcPure cats res := by
  induction cats generalizing res with
  | nil => intro code h; simp at h
  | cons c rest ih =>
    intro code hmem hc
    unfold epcPure
    rcases List.mem_cons.mp hmem with rfl | hmem'
    · rw [if_pos hc]
      by_cases hm : PyScalar.str (parentOf code) ∈ res
      · rw [if_pos hm]
        exact (epcPure_grows rest res).subset hm
      · rw [if_neg hm]
        exact (epcPure_grows rest _).subset (by simp)
    · by_cases hc' : c.contains '-'
      · rw [if_pos hc']
        by_cases hm : PyScalar.str (parentOf c) ∈ res
        · rw [if_pos hm]; exact ih res code hmem' hc
        · rw [if_neg hm]; exact ih _ code hmem' hc
      · rw [if_neg hc']; exact ih res code hmem' hc

theorem mem_epcPure (cats : List Str) (res : List PyScalar) (x : PyScalar)
    (hx : x ∈ epcPure cats res) :
    x ∈ res ∨ ∃ code ∈ cats, code.contains '-' = true ∧
      x = PyScalar.str (parentOf code) ∧ x ∉ res := by
  induction cats generalizing res with
  | nil => exact Or.inl hx
  | cons c rest ih =>
    unfold epcPure at hx
    by_cases hc : c.contains '-'
    · rw [if_pos hc] at hx
      by_cases hm : PyScalar.str (parentOf c) ∈ res
      · rw [if_pos hm] at hx
        rcases ih res hx with h | ⟨code, hmem, hdash, heq, hnot⟩
        · exact Or.inl h
        · exact Or.inr ⟨code, List.mem_cons_of_mem c hmem, hdash, heq, hnot⟩
      · rw [if_neg hm] at hx
        rcases ih _ hx with h | ⟨code, hmem, hdash, heq, hnot⟩
        · rcases List.mem_append.mp h with h1 | h2
          · exact Or.inl h1
          · have hxe : x = PyScalar.str (parentOf c) := by simpa using h2
            exact Or.inr ⟨c, List.mem_cons_self c rest, hc, hxe, hxe ▸ hm⟩
        · exact Or.inr ⟨code, List.mem_cons_of_mem c hmem, hdash, heq,
            fun hr => hnot (List.mem_append_left _ hr)⟩
    · rw [if_neg hc] at hx
      rcases ih res hx with h | ⟨code, hmem, hdash, heq, hnot⟩
      · exact Or.inl h
      · exact Or.inr ⟨code, List.mem_cons_of_mem c hmem, hdash, heq, hnot⟩

theorem nodup_epcPure (cats : List Str) (res : List PyScalar) (h : res.Nodup) :
    (epcPure cats res).Nodup := by
  induction cats generalizing res with
  | nil => exact h
  | cons c rest ih =>
    unfold epcPure
    by_cases hc : c.contains '-'
    · rw [if_pos hc]
      by_cases hm : PyScalar.str (parentOf c) ∈ res
      · rw [if_pos hm]; exact ih res h
      · rw [if_neg hm]
        refine ih _ (List.nodup_append.mpr ⟨h, List.nodup_singleton _, ?_⟩)
        intro a ha hb
        rw [List.mem_singleton] at hb
        exact hm (hb ▸ ha)
    · rw [if_neg hc]; exact ih res h

theorem epcPure_fixpoint (cats : List Str) (res : List PyScalar)
    (h : ∀ code ∈ cats, code.contains '-' = true → PyScalar.str (parentOf code) ∈ res) :
    epcPure cats res = res := by
  induction cats with
  | nil => rfl
  | cons c rest ih =>
    unfold epcPure
    by_cases hc : c.contains '-'
    · rw [if_pos hc, if_pos (h c (List.mem_cons_self c rest) hc)]
      exact ih (fun code hm hd => h code (List.mem_cons_of_mem c hm) hd)
    · rw [if_neg hc]
      exact ih (fun code hm hd => h code (List.mem_cons_of_mem c hm) hd)

theorem parentOf_no_dash (code : Str) : (parentOf code).contains '-' = false := by
  by_contra h
  rw [Bool.not_eq_false] at h
  have h' : '-' ∈ code.takeWhile (fun c => c ≠ '-') := List.elem_iff.mp h
  have := List.mem_takeWhile_imp h'
  simp at this

/-- Lists whose elements are all Python strings. -/
def onlyStrs (l : List PyScalar) : Prop := ∀ x ∈ l, ∃ s, x = PyScalar.str s

theorem onlyStrs_epcPure (cats : List Str) (res : List PyScalar) (h : onlyStrs res) :
    onlyStrs (epcPure cats res) := by
  intro x hx
  rcases mem_epcPure cats res x hx with hm | ⟨code, _, _, heq, _⟩
  · exact h x hm
  · exact ⟨_, heq⟩

theorem onlyStrs_exists_map (l : List PyScalar) (h : onlyStrs l) :
    ∃ qs : List Str, l = qs.map PyScalar.str := by
  induction l with
  | nil => exact ⟨[], rfl⟩
  | cons x t ih =>
    obtain ⟨s, rfl⟩ := h x (List.mem_cons_self x t)
    obtain ⟨qs, hqs⟩ := ih (fun y hy => h y (List.mem_cons_of_mem _ hy))
    exact ⟨s :: qs, by rw [List.map_cons, hqs]⟩

/-- C6: parent-category closure.  For every category-code list, the
normalization `_ensure_parent_cats` succeeds and returns the input list
(preserved as a prefix: nothing removed, reordered or changed) followed only
by the missing parents of separator-carrying codes; every such parent is
present in the output; no duplicates are introduced; and the normalization is
idempotent. -/
theorem parent_category_closure (cats : List Str) :
    ∃ out : List PyScalar,
      ensure_parent_cats (cats.map PyScalar.str) = .ok out ∧
      (cats.map PyScalar.str) <+: out ∧
      (∀ code ∈ cats, code.contains '-' = true → PyScalar.str (parentOf code) ∈ out) ∧
      (∀ x ∈ out, x ∈ cats.map PyScalar.str ∨
        ∃ code ∈ cats, code.contains '-' = true ∧ x = PyScalar.str (parentOf code) ∧
          x ∉ cats.map PyScalar.str) ∧
      ((cats.map PyScalar.str).Nodup → out.Nodup) ∧
      ensure_parent_cats out = .ok out := by
  by_cases hnil : cats = []
  · subst hnil
    exact ⟨[], rfl, List.prefix_refl _, by simp, by simp, fun _ => List.nodup_nil, rfl⟩
  · have hmapne : cats.map PyScalar.str ≠ [] := by
      simpa using hnil
    refine ⟨epcPure cats (cats.map PyScalar.str), ?_, epcPure_grows _ _,
      fun code hm hd => parent_mem_epcPure _ _ code hm hd,
      fun x hx => mem_epcPure _ _ x hx,
      fun hnd => nodup_epcPure _ _ hnd, ?_⟩
    · unfold ensure_parent_cats
      rw [if_neg (by simpa [List.isEmpty_iff] using hmapne)]
      exact ensureParentAux_eq_epcPure cats _
    · have hout : onlyStrs (epcPure cats (cats.map PyScalar.str)) :=
        onlyStrs_epcPure _ _ (fun x hx => by
          rcases List.mem_map.mp hx with ⟨s, _, rfl⟩
          exact ⟨s, rfl⟩)
      obtain ⟨qs, hqs⟩ := onlyStrs_exists_map _ hout
      have hne : epcPure cats (cats.map PyScalar.str) ≠ [] := by
        intro h0
        have hp := epcPure_grows cats (cats.map PyScalar.str)
        rw [h0] at hp
        exact hmapne (List.prefix_nil.mp hp)
      unfold ensure_parent_cats
      rw [if_neg (by simpa [List.isEmpty_iff] using hne)]
      rw [hqs, ensureParentAux_eq_epcPure qs _]
      have hfix : epcPure qs (qs.map PyScalar.str) = qs.map PyScalar.str := by
        apply epcPure_fixpoint
        intro code hcode hdash
        have hxout : PyScalar.str code ∈ epcPure cats (cats.map PyScalar.str) := by
          rw [hqs]
          exact List.mem_map_of_mem _ hcode
        rcases mem_epcPure _ _ _ hxout with hm | ⟨c', hc'm, hc'd, heq, hno⟩
        · rcases List.mem_map.mp hm with ⟨c0, hc0, he⟩
          have he' : c0 = code := PyScalar.str.inj he
          subst he'
          rw [show qs.map PyScalar.str = epcPure cats (cats.map PyScalar.str) from hqs.symm]
          exact parent_mem_epcPure _ _ c0 hc0 hdash
        · have hpc : code = parentOf c' := PyScalar.str.inj heq
          rw [hpc, parentOf_no_dash c'] at hdash
          exact absurd hdash (by simp)
      rw [hfix]

/-- C6 witness: normalizing `["IAB12-2"]` yields `["IAB12-2", "IAB12"]`, a
duplicate-free list that normalizes to itself. -/
theorem parent_category_closure_witness :
    ensure_parent_cats [PyScalar.str "IAB12-2".toList] =
      .ok [PyScalar.str "IAB12-2".toList, PyScalar.str "IAB12".toList] ∧
    [PyScalar.str "IAB12-2".toList, PyScalar.str "IAB12".toList].Nodup ∧
    ensure_parent_cats [PyScalar.str "IAB12-2".toList, PyScalar.str "IAB12".toList] =
      .ok [PyScalar.str "IAB12-2".toList, PyScalar.str "IAB12".toList] := by
  obtain ⟨out, h1, _, _, _, h5, h6⟩ := parent_category_closure ["IAB12-2".toList]
  have hc : ensure_parent_cats ([("IAB12-2".toList : Str)].map PyScalar.str) =
      .ok [PyScalar.str "IAB12-2".toList, PyScalar.str "IAB12".toList] := by rfl
  have hout : out = [PyScalar.str "IAB12-2".toList, PyScalar.str "IAB12".toList] := by
    rw [hc] at h1
    exact (Except.ok.inj h1).symm
  subst hout
  exact ⟨hc, h5 (by decide), h6⟩

/-! ## Lemmas for fence stripping -/

theorem dropWhile_eq_self_of_head (p : Char → Bool) (l : Str)
    (h : ∀ c, l.head? = some c → p c = false) : l.dropWhile p = l := by
  cases l with
  | nil => rfl
  | cons c t => simp [List.dropWhile_cons, h c rfl]

theorem stripBy_eq_self (p : Char → Bool) (l : Str)
    (h1 : ∀ c, l.head? = some c → p c = false)
    (h2 : ∀ c, l.getLast? = some c → p c = false) : stripBy p l = l := by
  unfold stripBy
  rw [dropWhile_eq_self_of_head p l h1,
    dropWhile_eq_self_of_head p l.reverse
      (fun c hc => h2 c (by rwa [List.head?_reverse] at hc)),
    List.reverse_reverse]

/-- The response wrapper of the round-trip claim: a markdown fenced code
block with a leading `json` language tag. -/
def wrapFence (J : Str) : Str := "```json\n".toList ++ J ++ "\n```".toList

theorem stripFences_obj (J : Str) (hh : J.head? = some '{') (hl : J.getLast? = some '}') :
    stripFences J = J := by
  obtain ⟨t, rfl⟩ : ∃ t, J = '{' :: t := by
    cases J with
    | nil => simp at hh
    | cons c t => exact ⟨t, by simpa using congrArg (fun o => (Option.getD o 'x') :: t) hh⟩
  have hstrip : pyStrip ('{' :: t) = '{' :: t := by
    apply stripBy_eq_self
    · intro c hc
      simp at hc
      rw [← hc]
      rfl
    · intro c hc
      rw [hl] at hc
      cases hc
      rfl
  unfold stripFences
  rw [hstrip, if_neg (by simp [List.isPrefixOf])]

theorem dropWhile_cons_false (p : Char → Bool) (c : Char) (t : Str) (h : p c = false) :
    List.dropWhile p (c :: t) = c :: t := by
  simp [List.dropWhile_cons, h]

theorem stripFences_wrapFence (J : Str) (hh : J.head? = some '{')
    (hl : J.getLast? = some '}') : stripFences (wrapFence J) = J := by
  obtain ⟨t, rfl⟩ : ∃ t, J = '{' :: t := by
    cases J with
    | nil => simp at hh
    | cons c t => exact ⟨t, by simpa using congrArg (fun o => (Option.getD o 'x') :: t) hh⟩
  have hstrip1 : pyStrip (wrapFence ('{' :: t)) = wrapFence ('{' :: t) := by
    apply stripBy_eq_self
    · intro c hc
      have hc' : c = '`' := (Option.some.inj hc).symm
      rw [hc']
      rfl
    · intro c hc
      rw [show wrapFence ('{' :: t) =
          ('`' :: '`' :: '`' :: 'j' :: 's' :: 'o' :: 'n' :: '\n' :: '{' :: t) ++
            ['\n', '`', '`', '`'] by simp [wrapFence],
        List.getLast?_append_of_ne_nil _ (by simp)] at hc
      have hc' : c = '`' := (Option.some.inj hc).symm
      rw [hc']
      rfl
  have hpre : List.isPrefixOf "```".toList (wrapFence ('{' :: t)) = true := rfl
  have hcont : (wrapFence ('{' :: t)).contains '\n' = true := rfl
  have hafter : afterFirstNl (wrapFence ('{' :: t)) = ('{' :: t) ++ ['\n', '`', '`', '`'] := rfl
  have hsuffix : List.isSuffixOf "```".toList (('{' :: t) ++ ['\n', '`', '`', '`']) = true := by
    unfold List.isSuffixOf
    rw [List.reverse_append]
    simp [List.isPrefixOf]
  have htake : (('{' :: t) ++ ['\n', '`', '`', '`']).take
      ((('{' :: t) ++ ['\n', '`', '`', '`']).length - 3) = ('{' :: t) ++ ['\n'] := by
    have hlen : (('{' :: t) ++ ['\n', '`', '`', '`']).length - 3 = ('{' :: t).length + 1 := by
      simp
    rw [hlen, List.take_append 1]
    rfl
  have hstrip2 : pyStrip (('{' :: t) ++ ['\n']) = '{' :: t := by
    unfold pyStrip stripBy
    rw [show ('{' :: t) ++ ['\n'] = '{' :: (t ++ ['\n']) from rfl,
      dropWhile_cons_false pyIsSpace '{' _ rfl]
    have e2 : ('{' :: (t ++ ['\n'])).reverse = '\n' :: ('{' :: t).reverse := by
      rw [show '{' :: (t ++ ['\n']) = ('{' :: t) ++ ['\n'] from rfl, List.reverse_append]
      rfl
    rw [e2, List.dropWhile_cons, if_pos (show pyIsSpace '\n' = true from rfl)]
    have e3 : List.dropWhile pyIsSpace (('{' :: t).reverse) = ('{' :: t).reverse := by
      apply dropWhile_eq_self_of_head
      intro c hc
      rw [List.head?_reverse, hl] at hc
      cases hc
      rfl
    rw [e3, List.reverse_reverse]
  have hnopre : List.isPrefixOf "json".toList ('{' :: t) = false := rfl
  unfold stripFences
  rw [hstrip1]
  simp only [hpre, hcont, hafter, hsuffix, htake, hstrip2, hnopre, eq_self_iff_true,
    if_true, Bool.false_eq_true, if_false]

/-- C8: fence-stripping round-trip.  For every JSON object text `J` (starting
with `{` and ending with `}`), parsing the response obtained by wrapping `J`
in a fenced code block with a leading `json` language tag yields the same
result as parsing `J` directly, whatever the underlying `json.loads`. -/
theorem fence_strip_round_trip (loads : Str → Except Str JTop) (J : Str)
    (hh : J.head? = some '{') (hl : J.getLast? = some '}') :
    parse_llm_response loads (wrapFence J) = parse_llm_response loads J := by
  unfold parse_llm_response
  rw [stripFences_wrapFence J hh hl, stripFences_obj J hh hl]

/-- C8 witness: the round trip at the concrete object text `{"a": 1}` with a
concrete `loads`. -/
theorem fence_strip_round_trip_witness :
    parse_llm_response (fun _ => Except.error "E".toList)
        (wrapFence "\x7b\x22a\x22: 1\x7d".toList) =
      parse_llm_response (fun _ => Except.error "E".toList) "\x7b\x22a\x22: 1\x7d".toList :=
  fence_strip_round_trip _ _ (by rfl) (by rfl)

/-! ## Lemmas for the provider retry loops -/

theorem geminiLoop_ok (loads : Str → Except Str JTop) (att : Nat → GemAttempt)
    (attempt fuel : Nat) (raw : Str) (v : Rec) (hatt : att attempt = .ok raw)
    (hp : parse_llm_response loads raw = .ok v) :
    geminiLoop loads att attempt (fuel + 1) = ⟨.ok v, 1, []⟩ := by
  unfold geminiLoop
  rw [hatt]
  simp [hp]

theorem geminiLoop_err_no429 (loads : Str → Except Str JTop) (att : Nat → GemAttempt)
    (attempt fuel : Nat) (m : Str) (hatt : att attempt = .exn m) (h429 : is429 m = false) :
    geminiLoop loads att attempt (fuel + 1) = ⟨.error m, 1, []⟩ := by
  unfold geminiLoop
  rw [hatt]
  simp [h429]

theorem geminiLoop_err_429_retry (loads : Str → Except Str JTop) (att : Nat → GemAttempt)
    (attempt fuel : Nat) (m : Str) (hatt : att attempt = .exn m) (h429 : is429 m = true)
    (hlt : attempt < MAX_RETRIES - 1) :
    geminiLoop loads att attempt (fuel + 1) =
      ⟨(geminiLoop loads att (attempt + 1) fuel).result,
       (geminiLoop loads att (attempt + 1) fuel).calls + 1,
       ((extractRetryDelay m).getD (30 * (attempt + 1))) ::
         (geminiLoop loads att (attempt + 1) fuel).waits⟩ := by
  conv_lhs => unfold geminiLoop
  rw [hatt]
  simp [h429, hlt]

theorem geminiLoop_parse_err_429_retry (loads : Str → Except Str JTop)
    (att : Nat → GemAttempt) (attempt fuel : Nat) (raw m : Str)
    (hatt : att attempt = .ok raw) (hp : parse_llm_response loads raw = .error m)
    (h429 : is429 m = true) (hlt : attempt < MAX_RETRIES - 1) :
    geminiLoop loads att attempt (fuel + 1) =
      ⟨(geminiLoop loads att (attempt + 1) fuel).result,
       (geminiLoop loads att (attempt + 1) fuel).calls + 1,
       ((extractRetryDelay m).getD (30 * (attempt + 1))) ::
         (geminiLoop loads att (attempt + 1) fuel).waits⟩ := by
  conv_lhs => unfold geminiLoop
  rw [hatt]
  simp [hp, h429, hlt]

theorem geminiLoop_err_429_last (loads : Str → Except Str JTop) (att : Nat → GemAttempt)
    (attempt fuel : Nat) (m : Str) (hatt : att attempt = .exn m)
    (hge : ¬ attempt < MAX_RETRIES - 1) :
    geminiLoop loads att attempt (fuel + 1) = ⟨.error m, 1, []⟩ := by
  unfold geminiLoop
  rw [hatt]
  simp [hge]

theorem geminiLoop_parse_err_terminal (loads : Str → Except Str JTop)
    (att : Nat → GemAttempt) (attempt fuel : Nat) (raw m : Str)
    (hatt : att attempt = .ok raw) (hp : parse_llm_response loads raw = .error m)
    (hno : ¬ (is429 m = true ∧ attempt < MAX_RETRIES - 1)) :
    geminiLoop loads att attempt (fuel + 1) = ⟨.error m, 1, []⟩ := by
  unfold geminiLoop
  rw [hatt]
  rcases Decidable.not_and_iff_or_not.mp hno with hb | hb
  · have hb' : is429 m = false := by simpa using hb
    simp [hp, hb']
  · simp [hp, hb]

theorem geminiLoop_calls_le (loads : Str → Except Str JTop) (att : Nat → GemAttempt) :
    ∀ fuel attempt, (geminiLoop loads att attempt fuel).calls ≤ fuel := by
  intro fuel
  induction fuel with
  | zero => intro attempt; exact Nat.le_refl 0
  | succ n ih =>
    intro attempt
    cases hatt : att attempt with
    | ok raw =>
      cases hp : parse_llm_response loads raw with
      | ok v =>
        rw [geminiLoop_ok loads att attempt n raw v hatt hp]
        show 1 ≤ n + 1
        omega
      | error m =>
        by_cases hb : is429 m = true ∧ attempt < MAX_RETRIES - 1
        · rw [geminiLoop_parse_err_429_retry loads att attempt n raw m hatt hp hb.1 hb.2]
          exact Nat.succ_le_succ (ih (attempt + 1))
        · rw [geminiLoop_parse_err_terminal loads att attempt n raw m hatt hp hb]
          show 1 ≤ n + 1
          omega
    | exn m =>
      by_cases h429 : is429 m = true
      · by_cases hlt : attempt < MAX_RETRIES - 1
        · rw [geminiLoop_err_429_retry loads att attempt n m hatt h429 hlt]
          exact Nat.succ_le_succ (ih (attempt + 1))
        · rw [geminiLoop_err_429_last loads att attempt n m hatt hlt]
          show 1 ≤ n + 1
          omega
      · have h429' : is429 m = false := by simpa using h429
        rw [geminiLoop_err_no429 loads att attempt n m hatt h429']
        show 1 ≤ n + 1
        omega

theorem groqLoop_raises (loads : Str → Except Str JTop) (att : Nat → GroqAttempt)
    (attempt fuel : Nat) (m : Str) (hatt : att attempt = .raises m) :
    groqLoop loads att attempt (fuel + 1) = ⟨.error m, 1, []⟩ := by
  unfold groqLoop
  rw [hatt]

theorem groqLoop_429_retry (loads : Str → Except Str JTop) (att : Nat → GroqAttempt)
    (attempt fuel : Nat) (r : Option Nat) (c : Except Str Str)
    (hatt : att attempt = .response 429 r c) (hlt : attempt < MAX_RETRIES - 1) :
    groqLoop loads att attempt (fuel + 1) =
      ⟨(groqLoop loads att (attempt + 1) fuel).result,
       (groqLoop loads att (attempt + 1) fuel).calls + 1,
       (r.getD (30 * (attempt + 1))) :: (groqLoop loads att (attempt + 1) fuel).waits⟩ := by
  conv_lhs => unfold groqLoop
  rw [hatt]
  simp [hlt]

theorem groqLoop_http_err (loads : Str → Except Str JTop) (att : Nat → GroqAttempt)
    (attempt fuel : Nat) (s : Nat) (r : Option Nat) (c : Except Str Str)
    (hatt : att attempt = .response s r c) (h4 : 400 ≤ s)
    (hno : ¬ (s = 429 ∧ attempt < MAX_RETRIES - 1)) :
    groqLoop loads att attempt (fuel + 1) =
      ⟨.error ("HTTPError ".toList ++ (Nat.repr s).toList), 1, []⟩ := by
  unfold groqLoop
  rw [hatt]
  rcases Decidable.not_and_iff_or_not.mp hno with hb | hb
  · simp [hb, h4]
  · simp [hb, h4]

theorem groqLoop_low_status_calls (loads : Str → Except Str JTop) (att : Nat → GroqAttempt)
    (attempt fuel : Nat) (s : Nat) (r : Option Nat) (c : Except Str Str)
    (hatt : att attempt = .response s r c) (h4 : ¬ 400 ≤ s) :
    (groqLoop loads att attempt (fuel + 1)).calls = 1 := by
  have hs : s ≠ 429 := fun he => h4 (he ▸ by omega)
  unfold groqLoop
  rw [hatt]
  cases c with
  | error m => simp [hs, h4]
  | ok text =>
    cases hp : parse_llm_response loads text with
    | ok v => simp [hs, h4, hp]
    | error m => simp [hs, h4, hp]

theorem groqLoop_calls_le (loads : Str → Except Str JTop) (att : Nat → GroqAttempt) :
    ∀ fuel attempt, (groqLoop loads att attempt fuel).calls ≤ fuel := by
  intro fuel
  induction fuel with
  | zero => intro attempt; exact Nat.le_refl 0
  | succ n ih =>
    intro attempt
    cases hatt : att attempt with
    | raises m =>
      rw [groqLoop_raises loads att attempt n m hatt]
      show 1 ≤ n + 1
      omega
    | response s r c =>
      by_cases h1 : s = 429 ∧ attempt < MAX_RETRIES - 1
      · rcases h1 with ⟨rfl, hlt⟩
        rw [groqLoop_429_retry loads att attempt n r c hatt hlt]
        exact Nat.succ_le_succ (ih (attempt + 1))
      · by_cases h4 : 400 ≤ s
        · rw [groqLoop_http_err loads att attempt n s r c hatt h4 h1]
          show 1 ≤ n + 1
          omega
        · rw [groqLoop_low_status_calls loads att attempt n s r c hatt h4]
          omega

/-- C3: rate-limit retry policy.  For classify calls on the cloud providers
(Gemini and Groq): at most `MAX_RETRIES = 3` provider attempts are ever made;
a rate-limit signal (the `"429"` marker in the Gemini error text, HTTP status
429 for Groq) causes a sleep of the server-suggested duration when present
(`retryDelay` in the message, resp. the `retry-after` header) and otherwise
`30 * attempt` backoff, and after the third rate-limited attempt the terminal
error is raised; a non-rate-limit transport error is raised immediately on
the attempt where it occurs, with no further attempts. -/
theorem rate_limit_retry_policy :
    (∀ loads att, (gemini_classify loads att).calls ≤ MAX_RETRIES) ∧
    (∀ loads att m, att 0 = GemAttempt.exn m → is429 m = false →
      gemini_classify loads att = ⟨.error m, 1, []⟩) ∧
    (∀ loads att m0 m1 m2, att 0 = GemAttempt.exn m0 → att 1 = GemAttempt.exn m1 →
      att 2 = GemAttempt.exn m2 → is429 m0 = true → is429 m1 = true → is429 m2 = true →
      gemini_classify loads att =
        ⟨.error m2, 3,
         [(extractRetryDelay m0).getD 30, (extractRetryDelay m1).getD 60]⟩) ∧
    (∀ loads att m0 m1, att 0 = GemAttempt.exn m0 → att 1 = GemAttempt.exn m1 →
      is429 m0 = true → is429 m1 = false →
      gemini_classify loads att = ⟨.error m1, 2, [(extractRetryDelay m0).getD 30]⟩) ∧
    (∀ loads att, (groq_classify loads att).calls ≤ MAX_RETRIES) ∧
    (∀ loads att m, att 0 = GroqAttempt.raises m →
      groq_classify loads att = ⟨.error m, 1, []⟩) ∧
    (∀ loads att s r c, att 0 = GroqAttempt.response s r c → 400 ≤ s → s ≠ 429 →
      groq_classify loads att =
        ⟨.error ("HTTPError ".toList ++ (Nat.repr s).toList), 1, []⟩) ∧
    (∀ loads att r0 c0 r1 c1 r2 c2, att 0 = GroqAttempt.response 429 r0 c0 →
      att 1 = GroqAttempt.response 429 r1 c1 → att 2 = GroqAttempt.response 429 r2 c2 →
      groq_classify loads att =
        ⟨.error ("HTTPError ".toList ++ (Nat.repr 429).toList), 3,
         [r0.getD 30, r1.getD 60]⟩) := by
  refine ⟨?_, ?_, ?_, ?_, ?_, ?_, ?_, ?_⟩
  · exact fun loads att => geminiLoop_calls_le loads att MAX_RETRIES 0
  · intro loads att m h0 hf
    exact geminiLoop_err_no429 loads att 0 2 m h0 hf
  · intro loads att m0 m1 m2 h0 h1 h2 r0 r1 r2
    have e0 : geminiLoop loads att 0 3 =
        ⟨(geminiLoop loads att (0 + 1) 2).result, (geminiLoop loads att (0 + 1) 2).calls + 1,
         ((extractRetryDelay m0).getD (30 * (0 + 1))) ::
           (geminiLoop loads att (0 + 1) 2).waits⟩ :=
      geminiLoop_err_429_retry loads att 0 2 m0 h0 r0 (by decide)
    have e1 : geminiLoop loads att (0 + 1) 2 =
        ⟨(geminiLoop loads att (0 + 1 + 1) 1).result,
         (geminiLoop loads att (0 + 1 + 1) 1).calls + 1,
         ((extractRetryDelay m1).getD (30 * (0 + 1 + 1))) ::
           (geminiLoop loads att (0 + 1 + 1) 1).waits⟩ :=
      geminiLoop_err_429_retry loads att (0 + 1) 1 m1 h1 r1 (by decide)
    have e2 : geminiLoop loads att (0 + 1 + 1) 1 = ⟨.error m2, 1, []⟩ :=
      geminiLoop_err_429_last loads att (0 + 1 + 1) 0 m2 h2 (by decide)
    show geminiLoop loads att 0 3 = _
    rw [e0, e1, e2]
  · intro loads att m0 m1 h0 h1 r0 hf1
    have e0 : geminiLoop loads att 0 3 =
        ⟨(geminiLoop loads att (0 + 1) 2).result, (geminiLoop loads att (0 + 1) 2).calls + 1,
         ((extractRetryDelay m0).getD (30 * (0 + 1))) ::
           (geminiLoop loads att (0 + 1) 2).waits⟩ :=
      geminiLoop_err_429_retry loads att 0 2 m0 h0 r0 (by decide)
    have e1 : geminiLoop loads att (0 + 1) 2 = ⟨.error m1, 1, []⟩ :=
      geminiLoop_err_no429 loads att (0 + 1) 1 m1 h1 hf1
    show geminiLoop loads att 0 3 = _
    rw [e0, e1]
  · exact fun loads att => groqLoop_calls_le loads att MAX_RETRIES 0
  · intro loads att m h0
    exact groqLoop_raises loads att 0 2 m h0
  · intro loads att s r c h0 h4 hs
    exact groqLoop_http_err loads att 0 2 s r c h0 h4 (fun hand => hs hand.1)
  · intro loads att r0 c0 r1 c1 r2 c2 h0 h1 h2
    have e0 : groqLoop loads att 0 3 =
        ⟨(groqLoop loads att (0 + 1) 2).result, (groqLoop loads att (0 + 1) 2).calls + 1,
         (r0.getD (30 * (0 + 1))) :: (groqLoop loads att (0 + 1) 2).waits⟩ :=
      groqLoop_429_retry loads att 0 2 r0 c0 h0 (by decide)
    have e1 : groqLoop loads att (0 + 1) 2 =
        ⟨(groqLoop loads att (0 + 1 + 1) 1).result,
         (groqLoop loads att (0 + 1 + 1) 1).calls + 1,
         (r1.getD (30 * (0 + 1 + 1))) :: (groqLoop loads att (0 + 1 + 1) 1).waits⟩ :=
      groqLoop_429_retry loads att (0 + 1) 1 r1 c1 h1 (by decide)
    have e2 : groqLoop loads att (0 + 1 + 1) 1 =
        ⟨.error ("HTTPError ".toList ++ (Nat.repr 429).toList), 1, []⟩ :=
      groqLoop_http_err loads att (0 + 1 + 1) 0 429 r2 c2 h2 (by decide) (by decide)
    show groqLoop loads att 0 3 = _
    rw [e0, e1, e2]

/-- C3 witness: concrete traces — a non-rate-limit Gemini transport error is
raised after exactly one attempt, and a Groq transport exception likewise. -/
theorem rate_limit_retry_policy_witness :
    gemini_classify (fun _ => Except.error "E".toList)
        (fun _ => GemAttempt.exn "boom".toList) =
      ⟨.error "boom".toList, 1, []⟩ ∧
    groq_classify (fun _ => Except.error "E".toList)
        (fun _ => GroqAttempt.raises "conn reset".toList) =
      ⟨.error "conn reset".toList, 1, []⟩ :=
  ⟨rate_limit_retry_policy.2.1 _ _ "boom".toList rfl rfl,
   rate_limit_retry_policy.2.2.2.2.2.1 _ _ "conn reset".toList rfl⟩

/-- The malformed response body demonstrating the C4 retry bug: `"["` followed
by 214 copies of `"0,"` — 429 characters of invalid JSON. -/
def malformed429Body : Str := '[' :: (List.replicate 214 ('0' :: ',' :: [])).flatten

/-- C4: a JSON parse failure IS retried by the Gemini retry loop when its
`JSONDecodeError` message happens to contain `"429"`.  On this 429-character
malformed body, `json.loads` raises `Expecting value: line 1 column 430 (char
429)`; the `except` clause's `"429" in str(e)` check treats the parse failure
as a rate-limit signal, so the loop sleeps (30 s, then 60 s — the `retryDelay`
regex finds nothing) and re-issues the provider call, making 3 attempts in
total instead of failing terminally on the first parse failure. -/
theorem gemini_retries_malformed_response :
    parse_llm_response miniJsonLoads malformed429Body = .error (expectingValueMsg 429) ∧
    is429 (expectingValueMsg 429) = true ∧
    extractRetryDelay (expectingValueMsg 429) = Option.none ∧
    gemini_classify miniJsonLoads (fun _ => GemAttempt.ok malformed429Body) =
      ⟨.error (expectingValueMsg 429), 3, [30, 60]⟩ := by
  refine ⟨rfl, rfl, rfl, rfl⟩

/-! ## Lemmas for the fetcher model -/

theorem keysOf_dictSet_mem (d : Rec) (k : Str) (v : PyVal) (h : k ∈ keysOf d) :
    keysOf (dictSet d k v) = keysOf d := by
  rw [keysOf_dictSet, if_pos h]

/-- The key set of every `PageContent` record, in insertion order. -/
def pageContentKeys : List Str :=
  [kUrl, kTitle, kDescription, kOgTags, kMetaKeywords, kTextContent, kLanguageHint, kError]

theorem keysOf_scrapeInitRec (url : Str) : keysOf (scrapeInitRec url) = pageContentKeys := rfl

theorem keysOf_scrape_with_timeout (w : WorkerEnv) (r : Rec)
    (hmeta : ∀ pd, w = WorkerEnv.fetchOk pd → keysOf pd.meta ⊆ keysOf r)
    (hE : kError ∈ keysOf r) (hTC : kTextContent ∈ keysOf r)
    (hLH : kLanguageHint ∈ keysOf r) :
    keysOf (scrape_with_timeout w r) = keysOf r := by
  cases w with
  | fetchRaises m => exact keysOf_dictSet_mem r kError _ hE
  | fetchEmpty => exact keysOf_dictSet_mem r kError _ hE
  | fetchOk pd =>
    show keysOf
      (let r1 := dictUpdate r pd.meta
       let r2 := match pd.text with
         | some t => if !t.isEmpty then dictSet r1 kTextContent (PyVal.str (t.take 4000)) else r1
         | Option.none => r1
       if !pyTruthy (pyIndex r2 kLanguageHint) && pyTruthy (pyIndex r2 kTextContent) then
         match pd.detected with
         | .ok lang => dictSet r2 kLanguageHint (PyVal.str lang)
         | .error _ => r2
       else r2) = keysOf r
    have h1 : keysOf (dictUpdate r pd.meta) = keysOf r :=
      keysOf_dictUpdate_subset r pd.meta (hmeta pd rfl)
    have h2 : ∀ r2 : Rec, keysOf r2 = keysOf r →
        keysOf (if !pyTruthy (pyIndex r2 kLanguageHint) && pyTruthy (pyIndex r2 kTextContent) then
          match pd.detected with
          | .ok lang => dictSet r2 kLanguageHint (PyVal.str lang)
          | .error _ => r2
        else r2) = keysOf r := by
      intro r2 hr2
      by_cases hcond : (!pyTruthy (pyIndex r2 kLanguageHint) &&
          pyTruthy (pyIndex r2 kTextContent)) = true
      · rw [if_pos hcond]
        cases pd.detected with
        | ok lang => rw [keysOf_dictSet_mem r2 kLanguageHint _ (hr2 ▸ hLH), hr2]
        | error u => exact hr2
      · rw [if_neg hcond]
        exact hr2
    cases htext : pd.text with
    | none => exact h2 _ h1
    | some t =>
      by_cases hne : (!t.isEmpty) = true
      · simp only [hne, if_pos]
        exact h2 _ (by rw [keysOf_dictSet_mem _ kTextContent _ (h1 ▸ hTC), h1])
      · simp only [hne, if_neg]
        exact h2 _ h1

/-- C9: fetcher totality.  For every URL, timeout and fetch outcome (including
worker exceptions, failed downloads, and timeouts with arbitrary partial
writes), `scrape_url` returns a record whose keys are exactly the eight
`PageContent` keys, with the `error` value set to the failure message on a
download failure or timeout; no exception propagates (every failure path of
the worker body is folded into the returned record). -/
theorem scrape_url_total (url : Str) (timeout : Nat) (env : ScrapeEnv)
    (hmeta : ∀ pd, env = ScrapeEnv.completes (WorkerEnv.fetchOk pd) →
      keysOf pd.meta ⊆ pageContentKeys)
    (hpw : ∀ w, env = ScrapeEnv.hangs w → keysOf w ⊆ pageContentKeys) :
    keysOf (scrape_url url timeout env) = pageContentKeys ∧
    (∀ m, env = ScrapeEnv.completes (WorkerEnv.fetchRaises m) →
      pyGet (scrape_url url timeout env) kError = PyVal.str m) ∧
    (env = ScrapeEnv.completes WorkerEnv.fetchEmpty →
      pyGet (scrape_url url timeout env) kError =
        PyVal.str "Failed to download URL".toList) ∧
    (∀ w, env = ScrapeEnv.hangs w →
      pyGet (scrape_url url timeout env) kError =
        PyVal.str ("Timed out after ".toList ++ (Nat.repr timeout).toList ++ ['s'])) := by
  refine ⟨?_, ?_, ?_, ?_⟩
  · cases env with
    | completes w =>
      show keysOf (scrape_with_timeout w (scrapeInitRec url)) = pageContentKeys
      rw [keysOf_scrape_with_timeout w (scrapeInitRec url)
        (fun pd hw => by
          rw [keysOf_scrapeInitRec]
          exact hmeta pd (by rw [hw]))
        (by rw [keysOf_scrapeInitRec]; decide)
        (by rw [keysOf_scrapeInitRec]; decide)
        (by rw [keysOf_scrapeInitRec]; decide)]
      exact keysOf_scrapeInitRec url
    | hangs w =>
      show keysOf (dictSet (dictUpdate (scrapeInitRec url) w) kError _) = pageContentKeys
      rw [keysOf_dictSet_mem _ kError _ (by
          rw [keysOf_dictUpdate_subset _ _ (by
            rw [keysOf_scrapeInitRec]; exact hpw w rfl), keysOf_scrapeInitRec]
          decide),
        keysOf_dictUpdate_subset _ _ (by
          rw [keysOf_scrapeInitRec]; exact hpw w rfl),
        keysOf_scrapeInitRec]
  · intro m h
    subst h
    show pyGet (dictSet (scrapeInitRec url) kError (PyVal.str m)) kError = PyVal.str m
    unfold pyGet
    rw [dictGet_dictSet_self]
    rfl
  · intro h
    subst h
    show pyGet (dictSet (scrapeInitRec url) kError
      (PyVal.str "Failed to download URL".toList)) kError = _
    unfold pyGet
    rw [dictGet_dictSet_self]
    rfl
  · intro w h
    subst h
    show pyGet (dictSet (dictUpdate (scrapeInitRec url) w) kError _) kError = _
    unfold pyGet
    rw [dictGet_dictSet_self]
    rfl

/-- C9 witness: a scrape that times out (with no partial writes) returns the
8-key record with the timeout error set. -/
theorem scrape_url_total_witness :
    keysOf (scrape_url "https://a.com".toList 15 (ScrapeEnv.hangs [])) = pageContentKeys ∧
    pyGet (scrape_url "https://a.com".toList 15 (ScrapeEnv.hangs [])) kError =
      PyVal.str "Timed out after 15s".toList := by
  have h := scrape_url_total "https://a.com".toList 15 (ScrapeEnv.hangs [])
    (fun pd hw => nomatch hw)
    (fun w hw => by cases hw; exact List.nil_subset _)
  exact ⟨h.1, h.2.2.2 [] rfl⟩

/-! ## Lemmas for per-URL result records -/

theorem process_url_ok (url : Str) (scraped : Rec) (c : Rec)
    (hF : pyTruthy (pyGet scraped kError) = false) :
    process_url url scraped (.ok c) =
      dictUpdate [(kUrl, PyVal.str url), (kScrapeError, PyVal.none)] c := by
  unfold process_url
  rw [hF]
  simp

theorem process_url_llmErr (url : Str) (scraped : Rec) (e : Str)
    (hF : pyTruthy (pyGet scraped kError) = false) :
    process_url url scraped (.error e) =
      [(kUrl, PyVal.str url),
       (kLlmError, PyVal.str e),
       (kSiteCat, PyVal.none),
       (kSitePagecat, PyVal.none),
       (kSiteContentCat, PyVal.none),
       (kSiteContentLanguage, pyGet scraped kLanguageHint),
       (kSiteContentKeywords, PyVal.none),
       (kSiteContentTitle, pyGet scraped kTitle)] := by
  unfold process_url
  rw [hF]
  simp

theorem process_url_scrapeErr (url : Str) (scraped : Rec) (cls : Except Str Rec)
    (hT : pyTruthy (pyGet scraped kError) = true) :
    process_url url scraped cls =
      [(kUrl, PyVal.str url),
       (kScrapeError, pyIndex scraped kError),
       (kSiteCat, PyVal.none),
       (kSitePagecat, PyVal.none),
       (kSiteContentCat, PyVal.none),
       (kSiteContentLanguage, pyGet scraped kLanguageHint),
       (kSiteContentKeywords, PyVal.none),
       (kSiteContentTitle, pyGet scraped kTitle)] := by
  unfold process_url
  rw [hT]
  simp

/-- C10 (amended): result-record error-key asymmetry.  Provided the parsed
classification dict does not itself carry the reserved keys `llm_error` /
`scrape_error` (e.g. it has only the six expected fields), the record built on
classification success contains an explicit null `scrape_error` and no
`llm_error` key at all; the record built on LLM failure contains `llm_error`
but no `scrape_error` key; and the record built on scrape failure contains
`scrape_error` but no `llm_error` key. -/
theorem result_record_error_key_asymmetry :
    (∀ url scraped c, pyTruthy (pyGet scraped kError) = false →
      kLlmError ∉ keysOf c → kScrapeError ∉ keysOf c →
      kScrapeError ∈ keysOf (process_url url scraped (.ok c)) ∧
      pyGet (process_url url scraped (.ok c)) kScrapeError = PyVal.none ∧
      kLlmError ∉ keysOf (process_url url scraped (.ok c))) ∧
    (∀ url scraped e, pyTruthy (pyGet scraped kError) = false →
      kLlmError ∈ keysOf (process_url url scraped (.error e)) ∧
      pyGet (process_url url scraped (.error e)) kLlmError = PyVal.str e ∧
      kScrapeError ∉ keysOf (process_url url scraped (.error e))) ∧
    (∀ url scraped cls, pyTruthy (pyGet scraped kError) = true →
      kScrapeError ∈ keysOf (process_url url scraped cls) ∧
      kLlmError ∉ keysOf (process_url url scraped cls)) := by
  refine ⟨?_, ?_, ?_⟩
  · intro url scraped c hF hL hS
    rw [process_url_ok url scraped c hF]
    refine ⟨?_, ?_, ?_⟩
    · exact (mem_keysOf_dictUpdate _ c kScrapeError).mpr (Or.inl (by simp [keysOf]))
    · unfold pyGet
      rw [dictGet_dictUpdate_notMem _ c kScrapeError hS]
      rfl
    · intro hmem
      rcases (mem_keysOf_dictUpdate _ c kLlmError).mp hmem with h | h
      · simp [keysOf, kUrl, kScrapeError, kLlmError] at h
      · exact hL h
  · intro url scraped e hF
    rw [process_url_llmErr url scraped e hF]
    refine ⟨by simp [keysOf], by unfold pyGet; rfl, ?_⟩
    intro hmem
    simp [keysOf, kUrl, kLlmError, kScrapeError, kSiteCat, kSitePagecat, kSiteContentCat,
      kSiteContentLanguage, kSiteContentKeywords, kSiteContentTitle] at hmem
  · intro url scraped cls hT
    rw [process_url_scrapeErr url scraped cls hT]
    refine ⟨by simp [keysOf], ?_⟩
    intro hmem
    simp [keysOf, kUrl, kLlmError, kScrapeError, kSiteCat, kSitePagecat, kSiteContentCat,
      kSiteContentLanguage, kSiteContentKeywords, kSiteContentTitle] at hmem

/-- C10 counterexample: a classification success whose parsed dict carries an
`llm_error` key makes `process_url` produce a success record that DOES contain
the `llm_error` key, contradicting the claim that success records never do. -/
theorem classification_overrides_llm_error_key :
    kLlmError ∈ keysOf (process_url "https://a.com".toList []
      (.ok [(kLlmError, PyVal.str "fake".toList)])) := by decide

/-- C10 witness: the asymmetry at a concrete well-shaped classification. -/
theorem result_record_error_key_asymmetry_witness :
    kScrapeError ∈ keysOf (process_url "https://a.com".toList []
      (.ok [(kSiteCat, PyVal.none)])) ∧
    pyGet (process_url "https://a.com".toList [] (.ok [(kSiteCat, PyVal.none)]))
      kScrapeError = PyVal.none ∧
    kLlmError ∉ keysOf (process_url "https://a.com".toList []
      (.ok [(kSiteCat, PyVal.none)])) :=
  result_record_error_key_asymmetry.1 "https://a.com".toList [] [(kSiteCat, PyVal.none)]
    rfl (by decide) (by decide)

/-- C7 (amended): corrupt store treated as empty.  A store file that is absent
or whose content fails JSON parsing loads as the empty prior state, and the
run proceeds normally from it; (per the counterexample, other read failures
such as a permission error are not caught and abort instead). -/
theorem absent_or_invalid_store_treated_empty (spec : RunSpec) :
    load_existing_results StoreFile.absent = .ok [] ∧
    load_existing_results StoreFile.invalidJson = .ok [] ∧
    (load_existing_results StoreFile.absent).map (fun store => runFile spec store) =
      .ok (runFile spec []) ∧
    (load_existing_results StoreFile.invalidJson).map (fun store => runFile spec store) =
      .ok (runFile spec []) :=
  ⟨rfl, rfl, rfl, rfl⟩

/-- C7 counterexample: a store file that exists but cannot be read (a
permission error) makes `load_existing_results` raise instead of yielding the
empty prior state — the `except` clause catches only `FileNotFoundError` and
`json.JSONDecodeError`. -/
theorem unreadable_store_raises :
    load_existing_results
        (StoreFile.unreadable "PermissionError: Permission denied".toList) =
      .error "PermissionError: Permission denied".toList ∧
    load_existing_results
        (StoreFile.unreadable "PermissionError: Permission denied".toList) ≠
      .ok [] :=
  ⟨rfl, fun h => nomatch h⟩

/-! ## Lemmas for the retry-errors step -/

/-- An error-field value of the shape this program writes: absent/null, or a
non-empty message string. -/
def okErrField : PyVal → Bool
  | PyVal.none => true
  | PyVal.str s => !s.isEmpty
  | _ => false

/-- The record has `scrape_error` or `llm_error` set (present and non-null). -/
def hasErrorSet (r : Rec) : Bool :=
  !(pyGet r kLlmError == PyVal.none) || !(pyGet r kScrapeError == PyVal.none)

theorem pyTruthy_eq_not_beq_none (v : PyVal) (h : okErrField v = true) :
    pyTruthy v = !(v == PyVal.none) := by
  cases v with
  | none => rfl
  | str s =>
    have hs : s.isEmpty = false := by
      unfold okErrField at h
      simpa using h
    have hne : (PyVal.str s == PyVal.none) = false := by
      apply Bool.eq_false_iff.mpr
      intro hb
      exact nomatch beq_iff_eq.mp hb
    show (!s.isEmpty) = !(PyVal.str s == PyVal.none)
    rw [hs, hne]
  | intV n => simp [okErrField] at h
  | boolV b => simp [okErrField] at h
  | list xs => simp [okErrField] at h
  | dictV d => simp [okErrField] at h

theorem isErrored_eq_hasErrorSet (r : Rec)
    (h1 : okErrField (pyGet r kScrapeError) = true)
    (h2 : okErrField (pyGet r kLlmError) = true) :
    isErroredRec r = hasErrorSet r := by
  unfold isErroredRec hasErrorSet
  rw [pyTruthy_eq_not_beq_none _ h2, pyTruthy_eq_not_beq_none _ h1]

theorem contains_eq_false_of_not_mem (l : List PyVal) (a : PyVal) (h : a ∉ l) :
    l.contains a = false := by
  cases hc : l.contains a
  · rfl
  · exact absurd (List.elem_iff.mp hc) h

theorem retryFilter_true_eq (store : List Rec)
    (hnd : (urlsOfStore store).Nodup)
    (hok : ∀ r ∈ store, okErrField (pyGet r kScrapeError) = true ∧
      okErrField (pyGet r kLlmError) = true) :
    retryFilter store true = store.filter (fun r => !(hasErrorSet r)) := by
  show store.filter _ = _
  apply List.filter_congr
  intro r hr
  congr 1
  by_cases he : hasErrorSet r = true
  · rw [he]
    apply List.elem_iff.mpr
    exact List.mem_map_of_mem urlOf (List.mem_filter.mpr ⟨hr,
      by rw [isErrored_eq_hasErrorSet r (hok r hr).1 (hok r hr).2]; exact he⟩)
  · have he' : hasErrorSet r = false := by simpa using he
    rw [he']
    apply contains_eq_false_of_not_mem
    intro hmem
    rcases List.mem_map.mp hmem with ⟨r', hr', heq⟩
    have hr'2 := List.mem_filter.mp hr'
    have hrr : r' = r := List.inj_on_of_nodup_map hnd hr'2.1 hr heq
    rw [hrr, isErrored_eq_hasErrorSet r (hok r hr).1 (hok r hr).2, he'] at hr'2
    exact absurd hr'2.2 (by simp)

/-- C5 (amended): retry-errors selects exactly the failed entries, provided the
store's records carry pairwise-distinct `url` values and their error fields
are null/absent or non-empty strings (as every record this program writes is).
Then enabling retry-errors keeps exactly the non-errored records, unchanged
and in order, and a URL is pending afterwards iff it was never processed or
its prior record had `scrape_error` or `llm_error` set. -/
theorem retry_errors_selects_exactly_failed (store : List Rec) (urls : List Str)
    (hnd : (urlsOfStore store).Nodup)
    (hok : ∀ r ∈ store, okErrField (pyGet r kScrapeError) = true ∧
      okErrField (pyGet r kLlmError) = true) :
    retryFilter store true = store.filter (fun r => !(hasErrorSet r)) ∧
    ∀ u, u ∈ pendingOf urls (retryFilter store true) ↔
      u ∈ urls ∧ (PyVal.str u ∉ urlsOfStore store ∨
        PyVal.str u ∈ urlsOfStore (store.filter hasErrorSet)) := by
  have h1 := retryFilter_true_eq store hnd hok
  refine ⟨h1, fun u => ?_⟩
  rw [h1]
  unfold pendingOf
  rw [List.mem_filter]
  constructor
  · rintro ⟨hu, hp⟩
    refine ⟨hu, ?_⟩
    have hnotin : PyVal.str u ∉
        urlsOfStore (store.filter (fun r => !(hasErrorSet r))) := by
      intro hmem
      have hc : (urlsOfStore (store.filter (fun r => !(hasErrorSet r)))).contains
          (PyVal.str u) = true := List.elem_iff.mpr hmem
      rw [hc] at hp
      exact nomatch hp
    by_cases hs : PyVal.str u ∈ urlsOfStore store
    · right
      rcases List.mem_map.mp hs with ⟨r, hr, heq⟩
      by_cases herr : hasErrorSet r = true
      · rw [← heq]
        exact List.mem_map_of_mem urlOf (List.mem_filter.mpr ⟨hr, herr⟩)
      · exfalso
        apply hnotin
        rw [← heq]
        exact List.mem_map_of_mem urlOf (List.mem_filter.mpr ⟨hr, by simpa using herr⟩)
    · left
      exact hs
  · rintro ⟨hu, hcase⟩
    refine ⟨hu, ?_⟩
    have hnm : PyVal.str u ∉
        urlsOfStore (store.filter (fun r => !(hasErrorSet r))) := by
      rcases hcase with hno | herr
      · intro hmem
        apply hno
        rcases List.mem_map.mp hmem with ⟨r, hr, heq⟩
        exact heq ▸ List.mem_map_of_mem urlOf (List.mem_filter.mp hr).1
      · intro hmem
        rcases List.mem_map.mp hmem with ⟨r, hr, heq⟩
        rcases List.mem_map.mp herr with ⟨r', hr', heq'⟩
        have hrr : r' = r := List.inj_on_of_nodup_map hnd (List.mem_filter.mp hr').1
          (List.mem_filter.mp hr).1 (by rw [heq, heq'])
        have hbad := (List.mem_filter.mp hr).2
        have hgood := (List.mem_filter.mp hr').2
        rw [← hrr, hgood] at hbad
        exact nomatch hbad
    rw [contains_eq_false_of_not_mem _ _ hnm]
    rfl

/-- The store used to refute the unrestricted C5 claim: two records for the
same URL, one successful and one with an `llm_error`. -/
def c5DupStore : List Rec :=
  [[(kUrl, PyVal.str "https://a.com".toList), (kScrapeError, PyVal.none)],
   [(kUrl, PyVal.str "https://a.com".toList), (kLlmError, PyVal.str "boom".toList)]]

/-- C5 counterexample: on a store holding a successful and an errored record
for the same URL, the retry-errors step removes the successful record as well
(it filters by URL membership in the errored-URL set), so successful records
are NOT always left unchanged. -/
theorem retry_errors_drops_successful_record :
    isErroredRec [(kUrl, PyVal.str "https://a.com".toList), (kScrapeError, PyVal.none)]
      = false ∧
    [(kUrl, PyVal.str "https://a.com".toList), (kScrapeError, PyVal.none)] ∈ c5DupStore ∧
    retryFilter c5DupStore true = [] := by decide

/-- The store used in the C5 witness: distinct URLs, one success, one error. -/
def c5Store : List Rec :=
  [[(kUrl, PyVal.str "https://a.com".toList), (kScrapeError, PyVal.none)],
   [(kUrl, PyVal.str "https://b.com".toList), (kLlmError, PyVal.str "boom".toList)]]

/-- C5 witness: on a well-formed mixed store, retry-errors keeps exactly the
successful record and re-enters the errored URL into the pending set. -/
theorem retry_errors_selects_exactly_failed_witness :
    retryFilter c5Store true =
      [[(kUrl, PyVal.str "https://a.com".toList), (kScrapeError, PyVal.none)]] ∧
    "https://b.com".toList ∈ pendingOf ["https://b.com".toList] (retryFilter c5Store true) := by
  have h := retry_errors_selects_exactly_failed c5Store ["https://b.com".toList]
    (by decide) (by decide)
  exact ⟨h.1.trans (by decide), (h.2 "https://b.com".toList).mpr
    ⟨by decide, Or.inr (by decide)⟩⟩

/-! ## Lemmas for the pipeline driver -/

theorem urlOf_process_url (url : Str) (scraped : Rec) (cls : Except Str Rec)
    (hc : ∀ c, cls = .ok c → kUrl ∉ keysOf c) :
    urlOf (process_url url scraped cls) = PyVal.str url := by
  by_cases hT : pyTruthy (pyGet scraped kError) = true
  · rw [process_url_scrapeErr url scraped cls hT]
    rfl
  · have hF : pyTruthy (pyGet scraped kError) = false := by simpa using hT
    cases cls with
    | error e =>
      rw [process_url_llmErr url scraped e hF]
      rfl
    | ok c =>
      rw [process_url_ok url scraped c hF]
      unfold urlOf pyIndex pyGet
      rw [dictGet_dictUpdate_notMem _ c kUrl (hc c rfl)]
      rfl

theorem mem_pendingOf (urls : List Str) (results : List Rec) (u : Str) :
    u ∈ pendingOf urls results ↔ u ∈ urls ∧ PyVal.str u ∉ urlsOfStore results := by
  unfold pendingOf
  rw [List.mem_filter]
  constructor
  · rintro ⟨h1, h2⟩
    refine ⟨h1, fun hm => ?_⟩
    have hc : (urlsOfStore results).contains (PyVal.str u) = true := List.elem_iff.mpr hm
    rw [hc] at h2
    exact nomatch h2
  · rintro ⟨h1, h2⟩
    refine ⟨h1, ?_⟩
    rw [contains_eq_false_of_not_mem _ _ h2]
    rfl

theorem retryFilter_sublist (store : List Rec) (b : Bool) :
    List.Sublist (retryFilter store b) store := by
  cases b with
  | false => exact List.Sublist.refl store
  | true => exact List.filter_sublist store

theorem cappedPending_sublist (spec : RunSpec) (pending : List Str) :
    List.Sublist (cappedPending spec pending) pending := by
  unfold cappedPending
  by_cases h : (0 < spec.maxRequests && decide (spec.maxRequests < pending.length)) = true
  · rw [if_pos h]
    exact List.take_sublist _ _
  · rw [if_neg h]

theorem cappedPending_uncapped (spec : RunSpec) (pending : List Str)
    (h : spec.maxRequests = 0) : cappedPending spec pending = pending := by
  unfold cappedPending
  rw [h]
  simp

theorem runOnce_empty (spec : RunSpec) (store : List Rec)
    (h : pendingOf (load_urls spec.inputLines) (retryFilter store spec.retryErrors) = []) :
    runOnce spec store = Option.none := by
  unfold runOnce
  simp [h]

theorem runOnce_nonempty (spec : RunSpec) (store : List Rec)
    (h : pendingOf (load_urls spec.inputLines) (retryFilter store spec.retryErrors) ≠ []) :
    runOnce spec store = some (retryFilter store spec.retryErrors ++
      (spec.sched (cappedPending spec
        (pendingOf (load_urls spec.inputLines) (retryFilter store spec.retryErrors)))).map
        (fun u => process_url u (spec.scrapeOf u) (spec.clsOf u))) := by
  have hne : (pendingOf (load_urls spec.inputLines)
      (retryFilter store spec.retryErrors)).isEmpty = false := by
    simpa [List.isEmpty_iff] using h
  unfold runOnce
  simp only [hne, Bool.false_eq_true, if_false]

theorem runFile_nodup (spec : RunSpec) (store : List Rec)
    (hu : (load_urls spec.inputLines).Nodup)
    (hs : ∀ l, (spec.sched l).Perm l)
    (hc : ∀ u c, spec.clsOf u = .ok c → kUrl ∉ keysOf c)
    (hstore : (urlsOfStore store).Nodup) :
    (urlsOfStore (runFile spec store)).Nodup := by
  by_cases hp : pendingOf (load_urls spec.inputLines)
      (retryFilter store spec.retryErrors) = []
  · unfold runFile
    rw [runOnce_empty spec store hp]
    exact hstore
  · unfold runFile
    rw [runOnce_nonempty spec store hp]
    show (urlsOfStore (_ ++ _)).Nodup
    unfold urlsOfStore
    rw [List.map_append, List.nodup_append]
    have hressub : List.Sublist ((retryFilter store spec.retryErrors).map urlOf)
        (store.map urlOf) :=
      (retryFilter_sublist store spec.retryErrors).map urlOf
    have hresnd : ((retryFilter store spec.retryErrors).map urlOf).Nodup :=
      hstore.sublist hressub
    have hrecmap : ((spec.sched (cappedPending spec
        (pendingOf (load_urls spec.inputLines) (retryFilter store spec.retryErrors)))).map
        (fun u => process_url u (spec.scrapeOf u) (spec.clsOf u))).map urlOf =
        (spec.sched (cappedPending spec
          (pendingOf (load_urls spec.inputLines)
            (retryFilter store spec.retryErrors)))).map PyVal.str := by
      rw [List.map_map]
      apply List.map_congr_left
      intro u _
      exact urlOf_process_url u (spec.scrapeOf u) (spec.clsOf u) (fun c h => hc u c h)
    have hpnd : (pendingOf (load_urls spec.inputLines)
        (retryFilter store spec.retryErrors)).Nodup := hu.filter _
    have hcapnd : (cappedPending spec (pendingOf (load_urls spec.inputLines)
        (retryFilter store spec.retryErrors))).Nodup :=
      hpnd.sublist (cappedPending_sublist spec _)
    have hschednd : (spec.sched (cappedPending spec
        (pendingOf (load_urls spec.inputLines)
          (retryFilter store spec.retryErrors)))).Nodup :=
      (hs _).symm.nodup hcapnd
    refine ⟨hresnd, ?_, ?_⟩
    · rw [hrecmap]
      exact hschednd.map (fun a b hab => PyVal.str.inj hab)
    · intro a haL haR
      rw [hrecmap] at haR
      rcases List.mem_map.mp haR with ⟨u, humem, rfl⟩
      have hucap : u ∈ cappedPending spec (pendingOf (load_urls spec.inputLines)
          (retryFilter store spec.retryErrors)) := (hs _).mem_iff.mp humem
      have hup : u ∈ pendingOf (load_urls spec.inputLines)
          (retryFilter store spec.retryErrors) :=
        (cappedPending_sublist spec _).subset hucap
      exact ((mem_pendingOf _ _ u).mp hup).2 haL

theorem foldl_runFile_nodup :
    ∀ (specs : List RunSpec) (store : List Rec),
      (∀ s ∈ specs, (load_urls s.inputLines).Nodup) →
      (∀ s ∈ specs, ∀ l, (s.sched l).Perm l) →
      (∀ s ∈ specs, ∀ u c, s.clsOf u = .ok c → kUrl ∉ keysOf c) →
      (urlsOfStore store).Nodup →
      (urlsOfStore (specs.foldl (fun f s => runFile s f) store)).Nodup := by
  intro specs
  induction specs with
  | nil => intro store _ _ _ h; exact h
  | cons s rest ih =>
    intro store hu hs hc h
    show (urlsOfStore (rest.foldl (fun f s => runFile s f) (runFile s store))).Nodup
    exact ih (runFile s store)
      (fun x hx => hu x (List.mem_cons_of_mem s hx))
      (fun x hx => hs x (List.mem_cons_of_mem s hx))
      (fun x hx => hc x (List.mem_cons_of_mem s hx))
      (runFile_nodup s store (hu s (List.mem_cons_self s rest))
        (hs s (List.mem_cons_self s rest)) (hc s (List.mem_cons_self s rest)) h)

/-- C1 (amended): at-most-one result per URL, provided each run's normalized
input URL list is itself duplicate-free (the code deduplicates only against
the store, never within one run's input) and provider classifications never
carry a `url` key of their own.  Then across any sequence of runs — any
inputs, any completion order (sequential or concurrent), with or without
retry-errors, any per-URL outcomes — the store's `url` values stay
duplicate-free. -/
theorem store_urls_nodup (specs : List RunSpec)
    (hu : ∀ s ∈ specs, (load_urls s.inputLines).Nodup)
    (hs : ∀ s ∈ specs, ∀ l, (s.sched l).Perm l)
    (hc : ∀ s ∈ specs, ∀ u c, s.clsOf u = .ok c → kUrl ∉ keysOf c) :
    (urlsOfStore (runSeq specs)).Nodup :=
  foldl_runFile_nodup specs [] hu hs hc List.nodup_nil

/-- The pipeline run used by the C1 counterexample: the same URL twice in the
input file; every fetch fails. -/
def dupInputSpec : RunSpec :=
  { inputLines := ["a.com".toList, "a.com".toList]
    retryErrors := false
    maxRequests := 0
    sched := id
    scrapeOf := fun _ => [(kError, PyVal.str "Failed to download URL".toList)]
    clsOf := fun _ => .error "unused".toList }

/-- C1 counterexample: one run over an input list containing the same URL
twice (starting from no store) persists two records for that URL — the
multiset of `url` values in the produced store has a duplicate. -/
theorem duplicate_input_breaks_url_uniqueness :
    ¬ (urlsOfStore (runSeq [dupInputSpec])).Nodup := by decide

/-- The single well-formed run used by the C1 witness. -/
def c1WitnessSpec : RunSpec :=
  { inputLines := ["a.com".toList, "b.com".toList]
    retryErrors := false
    maxRequests := 0
    sched := id
    scrapeOf := fun _ => [(kError, PyVal.str "Failed to download URL".toList)]
    clsOf := fun _ => .error "unused".toList }

/-- C1 witness: the amended claim at a concrete run. -/
theorem store_urls_nodup_witness :
    (urlsOfStore (runSeq [c1WitnessSpec])).Nodup :=
  store_urls_nodup [c1WitnessSpec]
    (fun s hsm => by rw [List.mem_singleton.mp hsm]; decide)
    (fun s hsm => by rw [List.mem_singleton.mp hsm]; exact fun l => List.Perm.refl l)
    (fun s hsm => by rw [List.mem_singleton.mp hsm]; exact fun u c h => nomatch h)

/-- C2 (amended): idempotent resume, provided the first run was not truncated
by a max-requests cap (and classifications never carry a `url` key).  For any
prior store, after a completed uncapped run over the input list, a second run
with the same input and no retry-errors flag finds nothing pending (processes
zero URLs) and returns before any save, leaving the store file unchanged. -/
theorem resume_idempotent_without_cap (s1 s2 : RunSpec) (store0 : List Rec)
    (hin : s2.inputLines = s1.inputLines)
    (hcap : s1.maxRequests = 0)
    (hretry : s2.retryErrors = false)
    (hs : ∀ l, (s1.sched l).Perm l)
    (hc : ∀ u c, s1.clsOf u = .ok c → kUrl ∉ keysOf c) :
    runOnce s2 (runFile s1 store0) = Option.none ∧
    runFile s2 (runFile s1 store0) = runFile s1 store0 := by
  have hcover : ∀ u ∈ load_urls s1.inputLines,
      PyVal.str u ∈ urlsOfStore (runFile s1 store0) := by
    intro u hu
    by_cases hp : pendingOf (load_urls s1.inputLines)
        (retryFilter store0 s1.retryErrors) = []
    · unfold runFile
      rw [runOnce_empty s1 store0 hp]
      show PyVal.str u ∈ urlsOfStore store0
      have h2 := List.filter_eq_nil_iff.mp hp u hu
      have h3 : (urlsOfStore (retryFilter store0 s1.retryErrors)).contains
          (PyVal.str u) = true := by
        cases hcc : (urlsOfStore (retryFilter store0 s1.retryErrors)).contains
            (PyVal.str u)
        · exact absurd (by rw [hcc]; rfl) h2
        · rfl
      exact ((retryFilter_sublist store0 s1.retryErrors).map urlOf).subset
        (List.elem_iff.mp h3)
    · unfold runFile
      rw [runOnce_nonempty s1 store0 hp]
      show PyVal.str u ∈ urlsOfStore (_ ++ _)
      unfold urlsOfStore
      rw [List.map_append, List.mem_append]
      by_cases hmem : PyVal.str u ∈ (retryFilter store0 s1.retryErrors).map urlOf
      · exact Or.inl hmem
      · right
        have hup : u ∈ pendingOf (load_urls s1.inputLines)
            (retryFilter store0 s1.retryErrors) :=
          (mem_pendingOf _ _ u).mpr ⟨hu, hmem⟩
        have hcap' : cappedPending s1 (pendingOf (load_urls s1.inputLines)
            (retryFilter store0 s1.retryErrors)) =
            pendingOf (load_urls s1.inputLines) (retryFilter store0 s1.retryErrors) :=
          cappedPending_uncapped s1 _ hcap
        have husched : u ∈ s1.sched (cappedPending s1
            (pendingOf (load_urls s1.inputLines) (retryFilter store0 s1.retryErrors))) := by
          rw [hcap']
          exact (hs _).mem_iff.mpr hup
        rw [List.map_map]
        refine List.mem_map.mpr ⟨u, husched, ?_⟩
        exact urlOf_process_url u (s1.scrapeOf u) (s1.clsOf u) (fun c h => hc u c h)
  have hpend2 : pendingOf (load_urls s2.inputLines)
      (retryFilter (runFile s1 store0) s2.retryErrors) = [] := by
    rw [hin, hretry]
    show (load_urls s1.inputLines).filter _ = []
    apply List.filter_eq_nil_iff.mpr
    intro u hu hbad
    have hcc : (urlsOfStore (retryFilter (runFile s1 store0) false)).contains
        (PyVal.str u) = true := List.elem_iff.mpr (hcover u hu)
    rw [hcc] at hbad
    exact nomatch hbad
  have h1 := runOnce_empty s2 (runFile s1 store0) hpend2
  refine ⟨h1, ?_⟩
  show (runOnce s2 (runFile s1 store0)).getD (runFile s1 store0) = runFile s1 store0
  rw [h1]
  rfl

/-- The capped first run of the C2 counterexample: two URLs, cap 1. -/
def cappedSpec : RunSpec :=
  { inputLines := ["a.com".toList, "b.com".toList]
    retryErrors := false
    maxRequests := 1
    sched := id
    scrapeOf := fun _ => [(kError, PyVal.str "Failed to download URL".toList)]
    clsOf := fun _ => .error "unused".toList }

/-- The second, uncapped run of the C2 counterexample: same input. -/
def uncappedSpec : RunSpec :=
  { inputLines := ["a.com".toList, "b.com".toList]
    retryErrors := false
    maxRequests := 0
    sched := id
    scrapeOf := fun _ => [(kError, PyVal.str "Failed to download URL".toList)]
    clsOf := fun _ => .error "unused".toList }

/-- C2 counterexample: after a COMPLETED run truncated by `--max-requests 1`,
a second run with the same input and no retry flag processes a URL and changes
the store — the claim fails for capped first runs. -/
theorem capped_run_breaks_idempotent_resume :
    runOnce uncappedSpec (runFile cappedSpec []) ≠ Option.none ∧
    runFile uncappedSpec (runFile cappedSpec []) ≠ runFile cappedSpec [] := by decide

/-- C2 witness: the amended claim at a concrete uncapped first run. -/
theorem resume_idempotent_without_cap_witness :
    runOnce uncappedSpec (runFile uncappedSpec []) = Option.none ∧
    runFile uncappedSpec (runFile uncappedSpec []) = runFile uncappedSpec [] :=
  resume_idempotent_without_cap uncappedSpec uncappedSpec [] rfl rfl rfl
    (fun l => List.Perm.refl l) (fun u c h => nomatch h)
